import Mathlib

/-
  Verification of the router-kit route resolution engine.

  Shallow embedding of:
  - the middleware chain executor (src/unnamed/part_006, executeMiddlewareChain),
  - the client-side matcher (src/unnamed/part_021, extractParams /
    matchPathPattern / matchRoutesAsync) and the RouterProvider redirect and
    generation-tracking effects,
  - the server-side matcher (src/unnamed/part_022, matchServerRoutes),
  - the route normalizer (src/unnamed/part_024, normalizePath / normalizeRoutes
    / createRouter).

  JavaScript strings are Lean Strings; JavaScript objects Record<string,string>
  are association lists with JS assignment/spread semantics; `undefined` slots
  are Option; asynchronous steps are modelled by their resolved outcomes
  (the engine awaits every step, so only the settled value is observable).
-/

namespace RouterKit

/-! ### JavaScript-style string helpers -/

/-- Character list of a string. -/
def chars (s : String) : List Char := s.data

/-- Build a string from a character list. -/
def ofChars (cs : List Char) : String := String.mk cs

/-- Auxiliary splitter: split at a separator character, keeping empty chunks,
exactly like JavaScript String.prototype.split with a one-character separator. -/
def splitSepAux (sep : Char) : List Char → List Char → List (List Char)
  | [], acc => [acc.reverse]
  | c :: rest, acc =>
    if c = sep then acc.reverse :: splitSepAux sep rest []
    else splitSepAux sep rest (c :: acc)

/-- JavaScript s.split(sep) for a one-character separator. -/
def splitSep (sep : Char) (s : String) : List String :=
  (splitSepAux sep s.data []).map ofChars

/-- JavaScript s.split("/").filter(Boolean): empty chunks are dropped. -/
def splitSlash (s : String) : List String :=
  (splitSep '/' s).filter (fun p => p != "")

/-- JavaScript s.split("|") (empty chunks kept). -/
def splitPipe (s : String) : List String := splitSep '|' s

/-- JavaScript s.startsWith(c) for a one-character prefix. -/
def headIs (c : Char) (s : String) : Bool := s.data.head? == some c

/-- JavaScript s.endsWith(c) for a one-character suffix. -/
def lastIs (c : Char) (s : String) : Bool := s.data.getLast? == some c

/-- JavaScript s.slice(1). -/
def sliceOne (s : String) : String := ofChars s.data.tail

/-- JavaScript s.slice(0, -1). -/
def dropLastOne (s : String) : String := ofChars s.data.dropLast

/-- JavaScript s.includes(c) for a single character. -/
def containsChar (c : Char) (s : String) : Bool := s.data.contains c

/-- JavaScript array.join(sep). -/
def joinWith (sep : String) : List String → String
  | [] => ""
  | [x] => x
  | x :: y :: rest => x ++ sep ++ joinWith sep (y :: rest)

/-! ### JavaScript Record<string, string> objects

An object literal is an association list in insertion order.  `rset` is
property assignment (replace the value in place when the key exists, append
otherwise); `rmerge` is the object spread {...a, ...b}. -/

/-- JavaScript string-to-string record in key insertion order. -/
abbrev Rec := List (String × String)

/-- JavaScript property read obj[k], none for a missing key. -/
def rget : Rec → String → Option String
  | [], _ => none
  | (k2, v) :: rest, k => if k2 = k then some v else rget rest k

/-- JavaScript property assignment obj[k] = v. -/
def rset : Rec → String → String → Rec
  | [], k, v => [(k, v)]
  | (k2, v2) :: rest, k, v =>
    if k2 = k then (k, v) :: rest else (k2, v2) :: rset rest k v

/-- JavaScript object spread {...a, ...b}. -/
def rmerge (a b : Rec) : Rec := b.foldl (fun acc e => rset acc e.1 e.2) a

/-- Keys of a record are pairwise distinct (true of every record the engine
builds, since records only grow through `rset`). -/
def NodupKeys (r : Rec) : Prop := (r.map Prod.fst).Nodup

/-! ### Middleware chain executor (src/unnamed/part_006)

A middleware is an arbitrary JavaScript function receiving (context, next).
Its observable behaviour, after the executor awaits it, is one of:
return a value without consulting next (`ret`), throw or reject (`raise`),
or tail-delegate by returning await next() (`callNext`).  The executor's
next() increments a shared index, so delegation runs the remainder of the
list.  console.error output is modelled as a log list. -/

/-- Middleware context (src/unnamed/part_003): pathname, params, search.
The optional request/signal slots carry no information observed by the
embedded logic and are omitted.  GuardArgs has the same fields and is
represented by the same type. -/
structure MiddlewareContext where
  pathname : String
  params : Rec
  search : String

/-- MiddlewareResult: {type:"continue"} | {type:"redirect", to} | {type:"block"}.
The redirect payload is optional because matchRoutesAsync defends with
middlewareResult.to || "/". -/
inductive MiddlewareResult where
  | cont
  | redirect (toPath : Option String)
  | block
deriving DecidableEq

/-- A JavaScript value as classified by the executor's normalization check
result && typeof result === "object" && "type" in result. -/
inductive JsValue where
  | undefinedVal
  | boolean (b : Bool)
  | str (s : String)
  | mwResult (r : MiddlewareResult)
  | objNoType
deriving DecidableEq

/-- The normalization step of next(): an object carrying a type field is
returned as-is, anything else (undefined, booleans, bare strings, objects
without a type field) falls back to {type:"continue"}. -/
def normalizeJs : JsValue → MiddlewareResult
  | .mwResult r => r
  | _ => .cont

/-- True exactly when the value is an object carrying a type field. -/
def isMwResultVal : JsValue → Bool
  | .mwResult _ => true
  | _ => false

/-- Observable behaviour of one middleware invocation. -/
inductive MwBehavior where
  | ret (v : JsValue)
  | raise
  | callNext

/-- A middleware, identified with its observable behaviour on a context. -/
def Middleware := MiddlewareContext → MwBehavior

/-- The console.error message prefix printed when a middleware throws. -/
def mwErrorLog : String := "[router-kit] Middleware error:"

/-- await Promise.resolve(middleware(context, next)): either a settled value
with the log produced while computing it, or an exception (.error). -/
def invokeMiddleware (m : Middleware) (ctx : MiddlewareContext)
    (nextResult : MiddlewareResult × List String) : Except Unit (JsValue × List String) :=
  match m ctx with
  | .ret v => .ok (v, [])
  | .raise => .error ()
  | .callNext => .ok (.mwResult nextResult.1, nextResult.2)

/-- The executor's next() function: run the middleware at the current index,
normalize its settled value, and convert a throw into {type:"block"} plus a
console.error log — the catch guarantees next() itself never throws. -/
def runNext (ctx : MiddlewareContext) : List Middleware → MiddlewareResult × List String
  | [] => (.cont, [])
  | m :: rest =>
    match invokeMiddleware m ctx (runNext ctx rest) with
    | .ok (v, logs) => (normalizeJs v, logs)
    | .error _ => (.block, [mwErrorLog])

/-- executeMiddlewareChain (src/unnamed/part_006 lines 14-55).  Total: every
exception raised by a step is caught inside next(), so no fault ever
propagates to the caller. -/
def executeMiddlewareChain (mws : List Middleware) (ctx : MiddlewareContext) :
    MiddlewareResult × List String :=
  if mws.isEmpty then (.cont, []) else runNext ctx mws

/-! ### Route model (src/unnamed/part_003 Route interface) -/

/-- Opaque view descriptor: a leaf React element, or the OutletProvider
wrapper that matchRoutesAsync builds around a matched parent (outlet slot,
wrapped component, depth). -/
inductive Comp where
  | view (id : Nat)
  | outletWrap (outlet : Option Comp) (inner : Option Comp) (depth : Nat)

/-- Opaque RouteMeta value. -/
inductive Meta where
  | mk (id : Nat)
deriving DecidableEq

/-- A route's path field: a single pattern string or an array of alias
patterns (string | string[]). -/
inductive PathVal where
  | str (s : String)
  | arr (l : List String)
deriving DecidableEq

/-- Values a guard can resolve to: a redirect path string, a boolean, or any
other value (treated as passing). -/
inductive GuardVal where
  | str (s : String)
  | boolean (b : Bool)
  | other
deriving DecidableEq

/-- Observable behaviour of one guard invocation: resolve to a value or
throw/reject. -/
inductive GuardBehavior where
  | ret (v : GuardVal)
  | raise

/-- A route guard, identified with its observable behaviour on its args
(GuardArgs has the same shape as MiddlewareContext). -/
def Guard := MiddlewareContext → GuardBehavior

/-- Route (src/unnamed/part_003): the fields consumed by the matchers,
executor and normalizer.  index/lazy/loading are never read by the embedded
logic and are omitted; loader functions are opaque identifiers. -/
inductive Route where
  | mk (path : Option PathVal) (component : Option Comp)
       (children : Option (List Route)) (middleware : List Middleware)
       (guard : Option Guard) (redirectTo : Option String)
       (loader : Option Nat) (meta : Option Meta) (errorElement : Option Comp)

def Route.path : Route → Option PathVal | .mk p _ _ _ _ _ _ _ _ => p

def Route.component : Route → Option Comp | .mk _ c _ _ _ _ _ _ _ => c

def Route.children : Route → Option (List Route) | .mk _ _ cs _ _ _ _ _ _ => cs

def Route.middleware : Route → List Middleware | .mk _ _ _ m _ _ _ _ _ => m

def Route.guard : Route → Option Guard | .mk _ _ _ _ g _ _ _ _ => g

def Route.redirectTo : Route → Option String | .mk _ _ _ _ _ r _ _ _ => r

def Route.loader : Route → Option Nat | .mk _ _ _ _ _ _ l _ _ => l

def Route.meta : Route → Option Meta | .mk _ _ _ _ _ _ _ m _ => m

def Route.errorElement : Route → Option Comp | .mk _ _ _ _ _ _ _ _ e => e

/-- RouteMatch (src/unnamed/part_003): one level of a match chain. -/
structure RMatch where
  route : Route
  params : Rec
  pathname : String
  pathnameBase : String
  pattern : String

/-- JavaScript truthiness of a string | undefined slot: undefined and the
empty string are falsy. -/
def optStrTruthy : Option String → Bool
  | none => false
  | some s => s != ""

/-- middlewareResult.to || "/". -/
def jsOrSlash : Option String → String
  | none => "/"
  | some s => if s = "" then "/" else s

/-- route.children && route.children.length > 0. -/
def isParentRoute (r : Route) : Bool :=
  match r.children with
  | some cs => decide (cs.length > 0)
  | none => false

/-! ### Shared pattern-matching loop

The for-loop bodies of extractParams in src/unnamed/part_021 (lines 142-171)
and src/unnamed/part_022 (lines 51-73) are textually identical; they are
embedded once.  pathParts[i] out of range is JavaScript undefined. -/

/-- The extractParams for-loop: walk pattern parts at index i against
pathParts.  Catch-all consumes the joined remainder and returns; a dynamic
part binds pathParts[i] (optional variants bind "" when absent); a static
part must equal pathParts[i]. -/
def extractParamsLoop (pathParts : List String) :
    List String → Nat → Rec → Option Rec
  | [], _, params => some params
  | pp :: rest, i, params =>
    if headIs '*' pp then
      let paramName := if sliceOne pp = "" then "splat" else sliceOne pp
      some (rset params paramName (joinWith "/" (pathParts.drop i)))
    else if headIs ':' pp then
      let paramName := sliceOne pp
      if lastIs '?' paramName then
        extractParamsLoop pathParts rest (i + 1)
          (rset params (dropLastOne paramName) ((pathParts.get? i).getD ""))
      else
        match pathParts.get? i with
        | none => none
        | some v => extractParamsLoop pathParts rest (i + 1) (rset params paramName v)
    else
      match pathParts.get? i with
      | some v =>
        if pp = v then extractParamsLoop pathParts rest (i + 1) params else none
      | none => none

/-- The leading length checks shared (modulo part_021's no-op root
normalization) by both extractParams versions, followed by the loop. -/
def extractParamsCore (patternParts pathParts : List String)
    (allowPrefix : Bool) : Option Rec :=
  if allowPrefix then
    if patternParts.length > pathParts.length then none
    else extractParamsLoop pathParts patternParts 0 []
  else if patternParts.length ≠ pathParts.length then
    if patternParts.any (headIs '*') then extractParamsLoop pathParts patternParts 0 []
    else none
  else extractParamsLoop pathParts patternParts 0 []

namespace Client

/-- extractParams (src/unnamed/part_021 lines 112-174).  The special cases
map the root pattern/pathname "/" to "" before splitting and return {} when
both segment lists are empty. -/
def extractParams (pattern pathname : String) (allowPrefix : Bool) : Option Rec :=
  let normalizedPattern := if pattern = "/" then "" else pattern
  let normalizedPathname := if pathname = "/" then "" else pathname
  let patternParts := splitSlash normalizedPattern
  let pathParts := splitSlash normalizedPathname
  if patternParts.isEmpty ∧ pathParts.isEmpty then some []
  else extractParamsCore patternParts pathParts allowPrefix

/-- The loop of matchPathPattern (src/unnamed/part_021 lines 199-223): try
each pipe-separated alias in order, an empty alias standing for "/". -/
def tryPats (currentPath : String) (allowPrefix : Bool) :
    List String → Option (Rec × String)
  | [] => none
  | pat :: rest =>
    let normalizedPat := if pat = "" then "/" else pat
    match extractParams normalizedPat currentPath allowPrefix with
    | some ps => some (ps, normalizedPat)
    | none => tryPats currentPath allowPrefix rest

/-- matchPathPattern: first alias of routePattern.split("|") that matches,
with its extracted params and the normalized pattern string. -/
def matchPathPattern (routePattern currentPath : String) (allowPrefix : Bool) :
    Option (Rec × String) :=
  tryPats currentPath allowPrefix (splitPipe routePattern)

/-- normalizePath (src/unnamed/part_021 lines 49-63): "/" becomes "", one
leading slash is stripped, arrays are joined with "|". -/
def normalizePath : Option PathVal → String
  | none => ""
  | some (.str s) => if s = "/" then "" else if headIs '/' s then sliceOne s else s
  | some (.arr l) =>
    joinWith "|" (l.map (fun p => if p = "/" then "" else if headIs '/' p then sliceOne p else p))

/-- getFirstPath (src/unnamed/part_021 lines 68-78). -/
def getFirstPath : Option PathVal → String
  | none => ""
  | some (.arr l) => (l.head?).getD ""
  | some (.str s) =>
    if containsChar '|' s then ((splitPipe s).head?).getD "" else s

/-- Slash-collapsing auxiliary for the url-join model: the flag records
whether the previous character was a slash. -/
def collapseSlashesAux : List Char → Bool → List Char
  | [], _ => []
  | c :: rest, prevSlash =>
    if c = '/' then
      if prevSlash then collapseSlashesAux rest true
      else '/' :: collapseSlashesAux rest true
    else c :: collapseSlashesAux rest false

/-- Model of the url-join package for plain path arguments: join the two
pieces with a slash and collapse duplicate slash runs to one slash. -/
def urlJoin (a b : String) : String :=
  ofChars (collapseSlashesAux (a.data ++ '/' :: b.data) false)

/-- MatchResult (src/unnamed/part_021 lines 179-194).  The error slot is an
opaque presence marker; loader records the loader identifier with the params
it is invoked with. -/
structure MatchResult where
  component : Option Comp := none
  pattern : String := ""
  params : Rec := []
  matchList : List RMatch := []
  meta : Option Meta := none
  redirect : Option String := none
  error : Option Unit := none
  loader : Option (Nat × Rec) := none
  page404Component : Option Comp := none
  errorElement : Option Comp := none
  middlewareResult : Option MiddlewareResult := none

/-- The fallthrough result of matchRoutesAsync (lines 487-494). -/
def noMatchResult (collected : List RMatch) (p404 : Option Comp) : MatchResult :=
  { component := none, pattern := "", params := [], matchList := collected,
    meta := none, page404Component := p404 }

/-- Bucketing state of the classification loop (lines 238-266). -/
structure Classified where
  staticRoutes : List Route
  dynamicRoutes : List Route
  catchAllRoutes : List Route
  page404Component : Option Comp

/-- rawPath = route.path || ""; pathArray splits pipe strings and keeps
arrays (lines 244-249). -/
def pathArrayOf (r : Route) : List String :=
  match r.path with
  | none => [""]
  | some (.arr l) => l
  | some (.str s) => if containsChar '|' s then splitPipe s else [s]

/-- A 404 fallback route: some alias is "404" or "/404" (line 250). -/
def is404Route (r : Route) : Bool :=
  (pathArrayOf r).any (fun p => p == "404" || p == "/404")

/-- Some alias contains a star (line 256). -/
def hasCatchAllRoute (r : Route) : Bool := (pathArrayOf r).any (containsChar '*')

/-- Some alias contains a colon (line 257). -/
def hasDynamicRoute (r : Route) : Bool := (pathArrayOf r).any (containsChar ':')

/-- One iteration of the classification loop: 404 routes are pulled out as
the page404Component (last assignment wins), the rest are appended to the
catch-all, dynamic or static bucket. -/
def classifyStep (acc : Classified) (r : Route) : Classified :=
  if is404Route r then { acc with page404Component := r.component }
  else if hasCatchAllRoute r then { acc with catchAllRoutes := acc.catchAllRoutes ++ [r] }
  else if hasDynamicRoute r then { acc with dynamicRoutes := acc.dynamicRoutes ++ [r] }
  else { acc with staticRoutes := acc.staticRoutes ++ [r] }

/-- The classification loop over a sibling list. -/
def classify (rs : List Route) : Classified :=
  rs.foldl classifyStep ⟨[], [], [], none⟩

/-- orderedRoutes = [...staticRoutes, ...dynamicRoutes, ...catchAllRoutes]
(line 269). -/
def orderedRoutes (rs : List Route) : List Route :=
  (classify rs).staticRoutes ++ (classify rs).dynamicRoutes ++ (classify rs).catchAllRoutes

/-- The terminal result for a matched route with no (matching) children
(lines 453-464). -/
def terminalResult (route : Route) (mrParams : Rec) (mrPattern : String)
    (newMatches : List RMatch) (p404 : Option Comp) : MatchResult :=
  { component := route.component, pattern := mrPattern, params := mrParams,
    matchList := newMatches, meta := route.meta,
    loader := route.loader.map (fun f => (f, mrParams)),
    page404Component := p404, errorElement := route.errorElement }

/-- Lines 404-464: build the RouteMatch, recurse into children when present,
and either wrap the child result in an OutletProvider (child matched or
redirected) or return the terminal result. -/
def finishMatched (recurse : List Route → String → String → String → List RMatch → MatchResult)
    (route : Route) (mrParams : Rec) (mrPattern : String)
    (currentPath parentPath searchString fullPath : String)
    (p404 : Option Comp) (collected : List RMatch) : MatchResult :=
  let newMatch : RMatch := ⟨route, mrParams, currentPath, parentPath, mrPattern⟩
  let newMatches := collected ++ [newMatch]
  match route.children with
  | some cs =>
    if cs.length > 0 then
      let childResult := recurse cs currentPath fullPath searchString newMatches
      if childResult.component.isSome ∨ optStrTruthy childResult.redirect then
        { component := some (.outletWrap childResult.component route.component
            ((splitSlash parentPath).length)),
          pattern := mrPattern,
          params := rmerge mrParams childResult.params,
          matchList := childResult.matchList,
          meta := if route.meta.isSome then route.meta else childResult.meta,
          loader := match route.loader with
            | some f => some (f, mrParams)
            | none => childResult.loader,
          page404Component := if p404.isSome then p404 else childResult.page404Component,
          errorElement := if route.errorElement.isSome then route.errorElement
            else childResult.errorElement }
      else terminalResult route mrParams mrPattern newMatches p404
    else terminalResult route mrParams mrPattern newMatches p404
  | none => terminalResult route mrParams mrPattern newMatches p404

/-- fullPath (lines 274-278): the parent path for root-like first paths,
otherwise url-join of the parent and the first path. -/
def routeFullPath (route : Route) (parentPath : String) : String :=
  let firstPath := getFirstPath route.path
  if firstPath = "/" ∨ firstPath = "" then parentPath
  else urlJoin parentPath ("/" ++ firstPath)

/-- fullPattern (lines 279-289): pipe-joined per-alias joins for multi-path
routes, otherwise the fullPath. -/
def routeFullPattern (route : Route) (parentPath : String) : String :=
  let normalizedRoutePath := normalizePath route.path
  if containsChar '|' normalizedRoutePath then
    joinWith "|" ((splitPipe normalizedRoutePath).map
      (fun p => if p = "" then parentPath else urlJoin parentPath ("/" ++ p)))
  else routeFullPath route parentPath

/-- The redirectTo result (lines 296-307). -/
def redirectToResult (route : Route) (mrParams : Rec) (mrPattern : String)
    (p404 : Option Comp) (collected : List RMatch) : MatchResult :=
  { component := none, pattern := mrPattern, params := mrParams,
    matchList := collected, meta := none, redirect := route.redirectTo,
    page404Component := p404 }

/-- The middleware-redirect result (lines 325-338). -/
def mwRedirectResult (route : Route) (mrParams : Rec) (mrPattern : String)
    (t : Option String) (p404 : Option Comp) (collected : List RMatch) : MatchResult :=
  { component := none, pattern := mrPattern, params := mrParams,
    matchList := collected, meta := none, redirect := some (jsOrSlash t),
    page404Component := p404, errorElement := route.errorElement,
    middlewareResult := some (.redirect t) }

/-- The guard-throw error result (lines 389-401). -/
def guardErrorResult (route : Route) (mrParams : Rec) (mrPattern : String)
    (p404 : Option Comp) (collected : List RMatch) : MatchResult :=
  { component := none, pattern := mrPattern, params := mrParams,
    matchList := collected, meta := none, error := some (),
    page404Component := p404, errorElement := route.errorElement }

/-- The guard-redirect result (lines 373-385). -/
def guardRedirectResult (route : Route) (mrParams : Rec) (mrPattern : String)
    (s : String) (p404 : Option Comp) (collected : List RMatch) : MatchResult :=
  { component := none, pattern := mrPattern, params := mrParams,
    matchList := collected, meta := none, redirect := some s,
    page404Component := p404, errorElement := route.errorElement }

/-- Guard handling for a matched route (lines 359-402): a throw yields the
error result, a string redirects, false skips to the next sibling (the skip
continuation), anything else proceeds to finishMatched. -/
def guardCheck (recurse : List Route → String → String → String → List RMatch → MatchResult)
    (route : Route) (mrParams : Rec) (mrPattern : String)
    (currentPath parentPath searchString : String) (p404 : Option Comp)
    (collected : List RMatch) (skip : MatchResult) : MatchResult :=
  match route.guard with
  | some g =>
    match g ⟨currentPath, mrParams, searchString⟩ with
    | .raise => guardErrorResult route mrParams mrPattern p404 collected
    | .ret (.str s) => guardRedirectResult route mrParams mrPattern s p404 collected
    | .ret (.boolean false) => skip
    | .ret _ =>
      finishMatched recurse route mrParams mrPattern currentPath parentPath
        searchString (routeFullPath route parentPath) p404 collected
  | none =>
    finishMatched recurse route mrParams mrPattern currentPath parentPath
      searchString (routeFullPath route parentPath) p404 collected

/-- Handling of one matched route (lines 295-464): redirectTo first, then
the middleware chain (redirect returns, block skips), then the guard. -/
def matchedStep (recurse : List Route → String → String → String → List RMatch → MatchResult)
    (route : Route) (mrParams : Rec) (mrPattern : String)
    (currentPath parentPath searchString : String) (p404 : Option Comp)
    (collected : List RMatch) (skip : MatchResult) : MatchResult :=
  if optStrTruthy route.redirectTo then
    redirectToResult route mrParams mrPattern p404 collected
  else
    match (if route.middleware.length > 0
      then (executeMiddlewareChain route.middleware
        ⟨currentPath, mrParams, searchString⟩).1 else .cont) with
    | .redirect t => mwRedirectResult route mrParams mrPattern t p404 collected
    | .block => skip
    | .cont =>
      guardCheck recurse route mrParams mrPattern currentPath parentPath
        searchString p404 collected skip

/-- Handling of an unmatched route with children (lines 467-484): recurse
into the children from the same collected chain; a truthy child result is
returned (its page404Component possibly overridden), otherwise skip. -/
def unmatchedStep (recurse : List Route → String → String → String → List RMatch → MatchResult)
    (route : Route) (currentPath parentPath searchString : String)
    (p404 : Option Comp) (collected : List RMatch) (skip : MatchResult) : MatchResult :=
  match route.children with
  | some cs =>
    let childResult := recurse cs currentPath (routeFullPath route parentPath)
      searchString collected
    if childResult.component.isSome ∨ optStrTruthy childResult.redirect then
      { childResult with page404Component :=
          if p404.isSome then p404 else childResult.page404Component }
    else skip
  | none => skip

/-- The main loop of matchRoutesAsync over the priority-ordered sibling list
(lines 271-485).  recurse is the recursive call used for children; the
loop's continue statements are the skip continuation. -/
def matchLoop (recurse : List Route → String → String → String → List RMatch → MatchResult)
    (currentPath parentPath searchString : String) (p404 : Option Comp) :
    List Route → List RMatch → MatchResult
  | [], collected => noMatchResult collected p404
  | route :: rest, collected =>
    let skip := matchLoop recurse currentPath parentPath searchString p404 rest collected
    match matchPathPattern (routeFullPattern route parentPath) currentPath
        (isParentRoute route) with
    | some mr =>
      matchedStep recurse route mr.1 mr.2 currentPath parentPath searchString
        p404 collected skip
    | none =>
      unmatchedStep recurse route currentPath parentPath searchString p404
        collected skip

/-- matchRoutesAsync (src/unnamed/part_021 lines 229-495), with a fuel
parameter bounding the recursion depth into children (the source recursion
terminates on finite trees; any fuel above the tree size computes the same
result). -/
def matchRoutesAsync : Nat → List Route → String → String → String → List RMatch → MatchResult
  | 0, _, _, _, _, collected => noMatchResult collected none
  | fuel + 1, routesList, currentPath, parentPath, searchString, collected =>
    let c := classify routesList
    matchLoop (matchRoutesAsync fuel) currentPath parentPath searchString
      c.page404Component
      (c.staticRoutes ++ c.dynamicRoutes ++ c.catchAllRoutes) collected

end Client

namespace Server

/-- ServerMatchResult (src/unnamed/part_022 lines 6-17).  The source field
name for the chain is matches. -/
structure ServerMatchResult where
  matchList : List RMatch
  params : Rec
  redirect : Option String := none
  statusCode : Nat
  meta : Option Meta := none

/-- extractParams (src/unnamed/part_022 lines 34-76): same checks and loop as
the client version but without the root "/" pre-normalization (a semantic
no-op, since splitting "/" on slashes already yields no parts) and without
the early both-empty return (the loop returns {} there anyway). -/
def extractParams (pattern pathname : String) (allowPrefix : Bool) : Option Rec :=
  extractParamsCore (splitSlash pattern) (splitSlash pathname) allowPrefix

/-- joinPaths (src/unnamed/part_022 lines 81-85): strip one trailing slash
from the parent, ensure one leading slash on the child, concatenate. -/
def joinPaths (parent child : String) : String :=
  (if lastIs '/' parent then dropLastOne parent else parent) ++
    (if headIs '/' child then child else "/" ++ child)

/-- normalizePath (src/unnamed/part_022 lines 90-96): arrays strip one
leading slash per alias and join with "|"; plain strings are returned
as-is. -/
def normalizePath : Option PathVal → String
  | none => ""
  | some (.arr l) => joinWith "|" (l.map (fun p => if headIs '/' p then sliceOne p else p))
  | some (.str s) => s

/-- getFirstPath (src/unnamed/part_022 lines 101-111), identical to the
client version. -/
def getFirstPath : Option PathVal → String := Client.getFirstPath

/-- is404: route.path === "404" || route.path === "/404" (line 138); only a
plain string path can be a 404 route here. -/
def is404Route (r : Route) : Bool :=
  match r.path with
  | some (.str s) => s == "404" || s == "/404"
  | _ => false

/-- pathArray = Array.isArray(route.path) ? route.path : route.path ?
[route.path] : [] (lines 141-145). -/
def pathArrayOf (r : Route) : List String :=
  match r.path with
  | some (.arr l) => l
  | some (.str s) => if s = "" then [] else [s]
  | none => []

/-- Some alias contains a star (line 146). -/
def hasCatchAllRoute (r : Route) : Bool := (pathArrayOf r).any (containsChar '*')

/-- Some alias contains a colon (line 147). -/
def hasDynamicRoute (r : Route) : Bool := (pathArrayOf r).any (containsChar ':')

/-- Bucketing state of the classification loop (lines 132-156). -/
structure Classified where
  staticRoutes : List Route
  dynamicRoutes : List Route
  catchAllRoutes : List Route

/-- One iteration of the classification loop: 404 routes are skipped, the
rest are appended to the catch-all, dynamic or static bucket. -/
def classifyStep (acc : Classified) (r : Route) : Classified :=
  if is404Route r then acc
  else if hasCatchAllRoute r then { acc with catchAllRoutes := acc.catchAllRoutes ++ [r] }
  else if hasDynamicRoute r then { acc with dynamicRoutes := acc.dynamicRoutes ++ [r] }
  else { acc with staticRoutes := acc.staticRoutes ++ [r] }

/-- The classification loop over a sibling list. -/
def classify (rs : List Route) : Classified :=
  rs.foldl classifyStep ⟨[], [], []⟩

/-- orderedRoutes = [...staticRoutes, ...dynamicRoutes, ...catchAllRoutes]
(line 158). -/
def orderedRoutes (rs : List Route) : List Route :=
  (classify rs).staticRoutes ++ (classify rs).dynamicRoutes ++ (classify rs).catchAllRoutes

/-- The inner for-loop over the alias patterns (lines 166-219): the first
alias whose joined full pattern extracts params wins. -/
def tryPatterns (pathname parentPath : String) (allowPrefix : Bool) :
    List String → Option (String × Rec)
  | [] => none
  | pattern :: rest =>
    let fullPattern := joinPaths parentPath pattern
    match extractParams fullPattern pathname allowPrefix with
    | some ps => some (fullPattern, ps)
    | none => tryPatterns pathname parentPath allowPrefix rest

/-- No-match fallthrough (lines 237-241). -/
def noMatchResult : ServerMatchResult :=
  { matchList := [], params := [], statusCode := 404 }

/-- Terminal result for a matched route with no (matching) children
(lines 212-217). -/
def terminalResult (route : Route) (m : RMatch) (extractedParams : Rec) :
    ServerMatchResult :=
  { matchList := [m], params := extractedParams, statusCode := 200,
    meta := route.meta }

/-- The main loop of matchServerRoutes over the priority-ordered sibling
list (lines 160-234). -/
def matchLoop (recurse : List Route → String → String → ServerMatchResult)
    (pathname parentPath : String) : List Route → ServerMatchResult
  | [] => noMatchResult
  | route :: rest =>
    let normalizedRoutePath := normalizePath route.path
    let firstPath := getFirstPath route.path
    let fullPath := joinPaths parentPath firstPath
    match tryPatterns pathname parentPath (isParentRoute route)
        (splitPipe normalizedRoutePath) with
    | some fp =>
      if optStrTruthy route.redirectTo then
        { matchList := [], params := fp.2, redirect := route.redirectTo,
          statusCode := 302, meta := route.meta }
      else
        let m : RMatch := ⟨route, fp.2, pathname, parentPath, fp.1⟩
        match route.children with
        | some cs =>
          if cs.length > 0 then
            let childResult := recurse cs pathname fullPath
            if optStrTruthy childResult.redirect then childResult
            else if childResult.matchList.length > 0 then
              { matchList := m :: childResult.matchList,
                params := rmerge fp.2 childResult.params,
                statusCode := childResult.statusCode,
                meta := if childResult.meta.isSome then childResult.meta else route.meta }
            else terminalResult route m fp.2
          else terminalResult route m fp.2
        | none => terminalResult route m fp.2
    | none =>
      match route.children with
      | some cs =>
        let childFullPath := joinPaths parentPath (getFirstPath route.path)
        let childResult := recurse cs pathname childFullPath
        if childResult.matchList.length > 0 ∨ optStrTruthy childResult.redirect then
          childResult
        else matchLoop recurse pathname parentPath rest
      | none => matchLoop recurse pathname parentPath rest

/-- matchServerRoutes (src/unnamed/part_022 lines 125-242), with a fuel
parameter bounding the recursion depth into children. -/
def matchServerRoutes : Nat → List Route → String → String → ServerMatchResult
  | 0, _, _, _ => noMatchResult
  | fuel + 1, routes, pathname, parentPath =>
    let c := classify routes
    matchLoop (matchServerRoutes fuel) pathname parentPath
      (c.staticRoutes ++ c.dynamicRoutes ++ c.catchAllRoutes)

end Server

namespace Normalizer

/-- One alias of part_024 normalizePath (lines 7-19): empty and "/" become
"", all leading slashes are stripped otherwise. -/
def normalizeOne (p : String) : String :=
  if p = "" then ""
  else if p = "/" then ""
  else if headIs '/' p then ofChars (p.data.dropWhile (fun c => c = '/'))
  else p

/-- normalizePath (src/unnamed/part_024 lines 7-19): normalize each alias and
join with "|" (empty aliases kept, they represent the root). -/
def normalizePath : Option PathVal → String
  | none => ""
  | some (.str s) => normalizeOne s
  | some (.arr l) => joinWith "|" (l.map normalizeOne)

/-- One route of normalizeRoutes (src/unnamed/part_024 lines 62-84): the
path is replaced by the normalized pipe-joined string, children (when
nonempty) are normalized with the given recursion, all other fields are
spread unchanged.  The parentPath of the source only feeds development-mode
warnings and is dropped. -/
def normalizeRoute (recurse : List Route → List Route) (r : Route) : Route :=
  Route.mk (some (.str (normalizePath r.path))) r.component
    (match r.children with
      | some cs => if cs.length > 0 then some (recurse cs) else some cs
      | none => none)
    r.middleware r.guard r.redirectTo r.loader r.meta r.errorElement

/-- normalizeRoutes (src/unnamed/part_024 lines 61-85), with a fuel
parameter bounding the recursion depth. -/
def normalizeRoutes : Nat → List Route → List Route
  | 0, rs => rs
  | fuel + 1, rs => rs.map (normalizeRoute (normalizeRoutes fuel))

/-- createRouter (src/unnamed/part_024 lines 152-164): input validation only
warns, the returned value is normalizeRoutes. -/
def createRouter (fuel : Nat) (rs : List Route) : List Route :=
  normalizeRoutes fuel rs

end Normalizer

/-! ### Navigation model (src/unnamed/part_021 RouterProvider)

The provider state and the two effects the claims are about:
- the matching effect (lines 686-748): abort the previous attempt's
  controller, install a fresh one, run matchRoutesAsync and commit the
  result only when this attempt's signal is still unaborted;
- the redirect effect (lines 750-755): when the committed result carries a
  truthy redirect, call navigate(redirect) with no options.

Attempts are identified by the generation of their AbortController.  The
React state cell updates are the transactional state transitions. -/

namespace Nav

/-- The provider's observable state: the committed match result and the
loader/error/resolving cells, plus the controller bookkeeping (current
generation and the set of aborted generations). -/
structure NavState where
  committed : Client.MatchResult
  loaderData : Option Nat
  error : Option Unit
  isResolving : Bool
  currentGen : Option Nat
  abortedGens : List Nat

/-- The events the matching effect produces: an effect run for a new
attempt, and the settlement of an attempt's matchRoutesAsync promise. -/
inductive NavEvent where
  | effectRun (gen : Nat)
  | matchSettled (gen : Nat) (result : Client.MatchResult)

/-- One event step.  effectRun aborts the controller of the attempt in
flight and installs a fresh one (lines 687-694, setIsResolving(true) line
703); matchSettled commits its result only when its own controller was
never aborted (lines 713-727): setMatchResult, clear loaderData when the
new result carries a loader, clear the error, stop resolving. -/
def stepNav (s : NavState) : NavEvent → NavState
  | .effectRun g =>
    { s with abortedGens := s.abortedGens ++ s.currentGen.toList,
             currentGen := some g, isResolving := true }
  | .matchSettled g r =>
    if g ∈ s.abortedGens then s
    else
      { s with committed := r,
               loaderData := if r.loader.isSome then none else s.loaderData,
               error := none, isResolving := false }

/-- Run a sequence of events. -/
def runNav (s : NavState) : List NavEvent → NavState
  | [] => s
  | e :: rest => runNav (stepNav s e) rest

end Nav

/-! ### navigate and the redirect effect (src/unnamed/part_021) -/

/-- Which history mutation navigate performs. -/
inductive HistoryMode where
  | push
  | replace
deriving DecidableEq

/-- NavigateOptions (src/unnamed/part_003): the replace flag; state and
preventScrollReset do not influence the history mode or target. -/
structure NavigateOptions where
  replace : Option Bool := none

/-- The history call navigate issues. -/
structure HistoryCall where
  mode : HistoryMode
  path : String
deriving DecidableEq

/-- Model of validateUrl (lines 36-43): new URL(url, origin) succeeds for
every path-shaped string, so validation always passes for the strings the
redirect effect produces. -/
def validateUrl (_url : String) : Bool := true

/-- /^https?:\/\//i test of navigate, restricted to lower case. -/
def isAbsoluteHttp (to_ : String) : Bool :=
  (chars to_).take 7 == "http://".data || (chars to_).take 8 == "https://".data

/-- navigate (src/unnamed/part_021 lines 550-619) for a string target: the
target is given a leading slash and prefixed with the basename unless it is
an absolute http(s) URL, then pushState or replaceState is chosen by
options?.replace (lines 581-593); none when validation rejects the URL. -/
def navigateCall (to_ : String) (options : Option NavigateOptions)
    (basename : String) : Option HistoryCall :=
  let targetPath :=
    if isAbsoluteHttp to_ then to_
    else
      let withSlash := if headIs '/' to_ then to_ else "/" ++ to_
      if basename ≠ "" then Client.urlJoin basename withSlash else withSlash
  if ¬ validateUrl targetPath then none
  else if (options.bind (fun o => o.replace)).getD false then
    some ⟨.replace, targetPath⟩
  else some ⟨.push, targetPath⟩

/-- The redirect effect (lines 750-755): when the committed result has a
truthy redirect, call navigate(matchResult.redirect) — with no options. -/
def handleRedirectEffect (mr : Client.MatchResult) (basename : String) :
    Option HistoryCall :=
  if optStrTruthy mr.redirect then
    navigateCall (mr.redirect.getD "") none basename
  else none

/-! ### Concrete fixtures used by witnesses and counterexamples -/

/-- A plain route: one string path, one view, nothing else. -/
def viewRoute (p : String) (c : Nat) : Route :=
  .mk (some (.str p)) (some (.view c)) none [] none none none none none

/-- The spec's priority scenario: siblings /users, /:id, /*rest. -/
def c1Routes : List Route :=
  [viewRoute "/users" 1, viewRoute "/:id" 2, viewRoute "/*rest" 3]

/-- A middleware that resolves to {type:"block"}. -/
def blockingMiddleware : Middleware := fun _ => .ret (.mwResult .block)

/-- A static /users route whose middleware blocks. -/
def c4BlockedRoute : Route :=
  .mk (some (.str "/users")) (some (.view 1)) none [blockingMiddleware]
    none none none none none

/-- The blocked static route next to a dynamic /:id sibling. -/
def c4Routes : List Route := [c4BlockedRoute, viewRoute "/:id" 2]

/-- A dynamic parent /:a whose child :b statically redirects. -/
def c2Routes : List Route :=
  [ .mk (some (.str "/:a")) (some (.view 1))
      (some [ .mk (some (.str ":b")) (some (.view 2)) none [] none (some "/x")
                none none none ])
      [] none none none none none ]

/-- A guard that resolves to the redirect path "/login". -/
def redirectGuard : Guard := fun _ => .ret (.str "/login")

/-- A /dashboard route protected by redirectGuard. -/
def c7Routes : List Route :=
  [ .mk (some (.str "dashboard")) (some (.view 1)) none [] (some redirectGuard)
      none none none none ]

/-- A two-level chain rebinding id and adding tab: /:id with child /:id/:tab
(the spec's param-merge example shape). -/
def c2ChainRoutes : List Route :=
  [ .mk (some (.str "/:id")) (some (.view 1))
      (some [ viewRoute ":tab" 2 ]) [] none none none none none ]

/-- A fixed middleware/guard context. -/
def ctx0 : MiddlewareContext := ⟨"/dashboard", [], ""⟩

/-- A middleware that throws. -/
def throwingMiddleware : Middleware := fun _ => .raise

/-- A middleware that resolves to undefined. -/
def undefMiddleware : Middleware := fun _ => .ret .undefinedVal

/-- The provider's initial state. -/
def navState0 : Nav.NavState := ⟨{}, none, none, false, none, []⟩

/-- A distinguishable committed result for the C3 witness. -/
def navResult1 : Client.MatchResult := { component := some (.view 7) }

/-- A middleware that resolves to {type:"redirect", to:"/login"}. -/
def redirectingMiddleware : Middleware :=
  fun _ => .ret (.mwResult (.redirect (some "/login")))

/-- A /dashboard route whose middleware redirects to /login. -/
def c5Route : Route :=
  .mk (some (.str "/dashboard")) (some (.view 1)) none [redirectingMiddleware]
    none none none none none

/-- A trivial recursion stand-in for loop-level theorems. -/
def noRecurse : List Route → String → String → String → List RMatch → Client.MatchResult :=
  fun _ _ _ _ collected => Client.noMatchResult collected none

/-! ### Specification predicates used by the theorems -/

/-- The deepest-wins union of the per-level params maps of a match chain:
the last (deepest) level binding a key wins. -/
def chainLookup (ms : List RMatch) (k : String) : Option String :=
  ms.foldl (fun acc m =>
    match rget m.params k with
    | some v => some v
    | none => acc) none

/-- A route subtree that can produce no redirect during resolution: a falsy
redirectTo, a middleware chain that never settles on a redirect outcome, a
guard that never resolves to a path string, and children with the same
property. -/
inductive NoRedirectRoute : Route → Prop where
  | intro (r : Route)
      (hredir : optStrTruthy r.redirectTo = false)
      (hmw : ∀ ctx t, (executeMiddlewareChain r.middleware ctx).1
        ≠ MiddlewareResult.redirect t)
      (hguard : ∀ g, r.guard = some g → ∀ ctx s, g ctx ≠ .ret (.str s))
      (hch : ∀ cs, r.children = some cs → ∀ c ∈ cs, NoRedirectRoute c) :
      NoRedirectRoute r

/-- The structural invariant of a committed (redirect- and error-free)
client result relative to the collected ancestor chain: the chain extends
the collected prefix, and the committed params map is exactly the
deepest-wins union of the extension's per-level params. -/
def ChainParamsInv (res : Client.MatchResult) (collected : List RMatch) : Prop :=
  res.redirect = none ∧
  (res.error.isSome → res.component = none) ∧
  (res.error = none →
    ∃ extra, res.matchList = collected ++ extra ∧ NodupKeys res.params ∧
      ∀ k, rget res.params k = chainLookup extra k)

/-- No two adjacent slashes in a character list. -/
def noDoubleSlashAux : List Char → Bool
  | [] => true
  | [_] => true
  | a :: b :: rest => !(a == '/' && b == '/') && noDoubleSlashAux (b :: rest)

/-- No two adjacent slashes in a string. -/
def noDoubleSlash (s : String) : Bool := noDoubleSlashAux s.data

/-- The slash flag after consuming a character list, starting from f. -/
def endSlash (l : List Char) (f : Bool) : Bool :=
  match l.getLast? with
  | some c => c == '/'
  | none => f

/-- A plain path segment string: non-empty, no leading or trailing slash,
no duplicate slashes, no alias separator, not the 404 marker. -/
def PlainStr (s : String) : Prop :=
  s ≠ "" ∧ headIs '/' s = false ∧ lastIs '/' s = false ∧
  noDoubleSlash s = true ∧ containsChar '|' s = false ∧ s ≠ "404"

/-- A well-formed parent path: the root, or a non-empty slash-led path with
no trailing or duplicate slashes and no alias separator. -/
def ParentOk (p : String) : Prop :=
  p = "/" ∨ (p ≠ "" ∧ headIs '/' p = true ∧ lastIs '/' p = false ∧
    noDoubleSlash p = true ∧ containsChar '|' p = false)

/-- A plain route subtree: a single plain string path, a component, and no
middleware, guard or redirectTo, recursively. -/
inductive PlainRoute : Route → Prop where
  | intro (r : Route) (s : String)
      (hpath : r.path = some (.str s)) (hs : PlainStr s)
      (hcomp : r.component.isSome = true) (hmw : r.middleware = [])
      (hguard : r.guard = none) (hred : r.redirectTo = none)
      (hch : ∀ cs, r.children = some cs → ∀ c ∈ cs, PlainRoute c) :
      PlainRoute r

/-- The correspondence between a client result and a server result for the
same location: no redirect or error on either side, the client chain is the
collected ancestors followed by the server chain, identical params, a
client component exactly when the server matched, and the server status
derived 404/200 from the match. -/
def ServerClientRel (c : Client.MatchResult) (s : Server.ServerMatchResult)
    (collected : List RMatch) : Prop :=
  c.redirect = none ∧ s.redirect = none ∧ c.error = none ∧
  c.matchList = collected ++ s.matchList ∧ c.params = s.params ∧
  (c.component.isSome ↔ s.matchList ≠ []) ∧
  s.statusCode = (if s.matchList.isEmpty then 404 else 200)

/-- A plain nested tree for the C7 witness. -/
def c7PlainRoutes : List Route :=
  [ viewRoute "users" 1,
    .mk (some (.str "teams/:tid")) (some (.view 2))
      (some [viewRoute "members" 3, viewRoute ":mid" 4]) [] none none none none none,
    viewRoute "*rest" 9 ]

theorem rget_rset (r : Rec) (k v k2 : String) :
    rget (rset r k v) k2 = if k2 = k then some v else rget r k2 := by
  induction r with
  | nil =>
    by_cases h : k2 = k
    · subst h; simp [rset, rget]
    · simp [rset, rget, h, Ne.symm h]
  | cons e rest ih =>
    obtain ⟨ke, ve⟩ := e
    by_cases hek : ke = k
    · subst hek
      by_cases h2 : k2 = ke
      · subst h2; simp [rset, rget]
      · simp [rset, rget, h2, Ne.symm h2]
    · by_cases h2 : k2 = ke
      · subst h2
        simp [rset, rget, hek]
      · simp [rset, rget, hek, h2, Ne.symm h2, ih]

theorem keys_rset (r : Rec) (k v : String) :
    (rset r k v).map Prod.fst =
      if k ∈ r.map Prod.fst then r.map Prod.fst else r.map Prod.fst ++ [k] := by
  induction r with
  | nil => simp [rset]
  | cons e rest ih =>
    obtain ⟨ke, ve⟩ := e
    by_cases hek : ke = k
    · subst hek; simp [rset]
    · have hke : ¬ k = ke := fun h => hek h.symm
      simp only [rset, if_neg hek, List.map_cons, ih, List.mem_cons, hke, false_or]
      by_cases hmem : k ∈ rest.map Prod.fst <;> simp [hmem]

theorem nodupKeys_rset (r : Rec) (k v : String) (h : NodupKeys r) :
    NodupKeys (rset r k v) := by
  unfold NodupKeys at *
  rw [keys_rset]
  by_cases hmem : k ∈ r.map Prod.fst
  · simpa [hmem]
  · rw [if_neg hmem]
    exact h.append (List.nodup_singleton k)
      (fun x hx hx2 => by
        simp only [List.mem_singleton] at hx2
        exact hmem (hx2 ▸ hx))

theorem nodupKeys_rmerge (a b : Rec) (ha : NodupKeys a) :
    NodupKeys (rmerge a b) := by
  induction b generalizing a with
  | nil => simpa [rmerge]
  | cons e rest ih =>
    obtain ⟨ke, ve⟩ := e
    have hstep : rmerge a ((ke, ve) :: rest) = rmerge (rset a ke ve) rest := rfl
    rw [hstep]
    exact ih _ (nodupKeys_rset _ _ _ ha)

theorem rget_eq_none_of_not_mem_keys (r : Rec) (k : String)
    (h : k ∉ r.map Prod.fst) : rget r k = none := by
  induction r with
  | nil => rfl
  | cons e rest ih =>
    obtain ⟨ke, ve⟩ := e
    simp only [List.map_cons, List.mem_cons] at h
    push_neg at h
    have hne : ¬ ke = k := fun hh => h.1 hh.symm
    simp [rget, hne, ih h.2]

theorem rget_rmerge (a b : Rec) (k : String) (hb : NodupKeys b) :
    rget (rmerge a b) k =
      match rget b k with
      | some v => some v
      | none => rget a k := by
  induction b generalizing a with
  | nil => simp [rmerge, rget]
  | cons e rest ih =>
    obtain ⟨ke, ve⟩ := e
    have hstep : rmerge a ((ke, ve) :: rest) = rmerge (rset a ke ve) rest := rfl
    have hb2 : (ke :: rest.map Prod.fst).Nodup := by
      unfold NodupKeys at hb; simpa using hb
    have hke : ke ∉ rest.map Prod.fst := (List.nodup_cons.mp hb2).1
    have hb' : NodupKeys rest := (List.nodup_cons.mp hb2).2
    rw [hstep, ih _ hb']
    by_cases hk : ke = k
    · subst hk
      rw [rget_eq_none_of_not_mem_keys rest ke hke]
      simp [rget, rget_rset]
    · have hset : rget (rset a ke ve) k = rget a k := by
        rw [rget_rset]
        simp [Ne.symm hk]
      have hrhs : rget ((ke, ve) :: rest) k = rget rest k := by
        simp [rget, hk]
      rw [hrhs]
      cases hrk : rget rest k <;> simp [hset]

/-! ### Middleware executor lemmas -/

theorem runNext_delegate_raise (ctx : MiddlewareContext) (pre : List Middleware)
    (m : Middleware) (rest : List Middleware)
    (hpre : ∀ x ∈ pre, x ctx = MwBehavior.callNext)
    (hm : m ctx = MwBehavior.raise) :
    runNext ctx (pre ++ m :: rest) = (.block, [mwErrorLog]) := by
  induction pre with
  | nil => simp [runNext, invokeMiddleware, hm]
  | cons p ps ih =>
    have hp : p ctx = .callNext := hpre p (List.mem_cons_self _ _)
    have hih := ih (fun x hx => hpre x (List.mem_cons_of_mem _ hx))
    simp [runNext, invokeMiddleware, hp, hih, normalizeJs]

theorem runNext_delegate_ret (ctx : MiddlewareContext) (pre : List Middleware)
    (m : Middleware) (rest : List Middleware) (v : JsValue)
    (hpre : ∀ x ∈ pre, x ctx = MwBehavior.callNext)
    (hm : m ctx = MwBehavior.ret v) :
    runNext ctx (pre ++ m :: rest) = (normalizeJs v, []) := by
  induction pre with
  | nil => simp [runNext, invokeMiddleware, hm]
  | cons p ps ih =>
    have hp : p ctx = .callNext := hpre p (List.mem_cons_self _ _)
    have hih := ih (fun x hx => hpre x (List.mem_cons_of_mem _ hx))
    simp [runNext, invokeMiddleware, hp, hih, normalizeJs]

theorem normalizeJs_cont_of_not_mwResult (v : JsValue)
    (h : isMwResultVal v = false) : normalizeJs v = .cont := by
  cases v <;> simp_all [isMwResultVal, normalizeJs]

/-- C6: for every context and middleware list, a step that throws (or
returns a rejecting promise) makes the chain executor produce a Block
outcome together with the surfaced console error log, and — the executor
being total, every raise caught inside next() — no exception propagates
past executeMiddlewareChain to its caller. -/
theorem c6_throwing_step_blocks_with_surfaced_error
    (ctx : MiddlewareContext) (pre : List Middleware) (m : Middleware)
    (rest : List Middleware)
    (hpre : ∀ x ∈ pre, x ctx = MwBehavior.callNext)
    (hm : m ctx = MwBehavior.raise) :
    executeMiddlewareChain (pre ++ m :: rest) ctx = (.block, [mwErrorLog]) := by
  have hne : (pre ++ m :: rest).isEmpty = false := by cases pre <;> simp
  simp only [executeMiddlewareChain, hne, Bool.false_eq_true, if_false]
  exact runNext_delegate_raise ctx pre m rest hpre hm

/-- Witness for C6 at a concrete input: a single throwing middleware. -/
theorem c6_witness :
    executeMiddlewareChain [throwingMiddleware] ctx0 = (.block, [mwErrorLog]) :=
  c6_throwing_step_blocks_with_surfaced_error ctx0 [] throwingMiddleware []
    (by intro x hx; cases hx) rfl

/-- C10: for every context and middleware list, an invoked step that
resolves to a value that is not an object carrying a type field (for
example undefined, false, or a bare string) makes executeMiddlewareChain
produce {type:"continue"} with no error log — it neither blocks, redirects,
nor faults. -/
theorem c10_non_object_result_is_continue
    (ctx : MiddlewareContext) (pre : List Middleware) (m : Middleware)
    (rest : List Middleware) (v : JsValue)
    (hpre : ∀ x ∈ pre, x ctx = MwBehavior.callNext)
    (hm : m ctx = MwBehavior.ret v)
    (hv : isMwResultVal v = false) :
    executeMiddlewareChain (pre ++ m :: rest) ctx = (.cont, []) := by
  have hne : (pre ++ m :: rest).isEmpty = false := by cases pre <;> simp
  simp only [executeMiddlewareChain, hne, Bool.false_eq_true, if_false]
  rw [runNext_delegate_ret ctx pre m rest v hpre hm,
    normalizeJs_cont_of_not_mwResult v hv]

/-- Witness for C10 at a concrete input: a middleware resolving to
undefined. -/
theorem c10_witness :
    executeMiddlewareChain [undefMiddleware] ctx0 = (.cont, []) :=
  c10_non_object_result_is_continue ctx0 [] undefMiddleware [] .undefinedVal
    (by intro x hx; cases hx) rfl rfl

/-! ### C8: optional-dynamic tail segments -/

/-- C8 counterexample: for the pattern /users/:tab? and the pathname /users
— which supplies the earlier segment and omits the optional one — both
extractParams implementations fail the match instead of binding tab to "",
refuting the claim. -/
theorem c8_counterexample :
    Client.extractParams "/users/:tab?" "/users" false = none ∧
    Server.extractParams "users/:tab?" "users" false = none :=
  ⟨rfl, rfl⟩

/-- C8 (amended): in exact matching, a pattern ending in an optional-dynamic
segment still requires the corresponding path segment: when the pathname
supplies all earlier segments but omits the optional one, the segment-count
check (which runs before the per-segment loop and is bypassed only by a
catch-all) fails the match.  The empty-string binding of an omitted optional
segment occurs only in catch-all patterns, e.g. /:a?/*r against /. -/
theorem c8_amended_optional_tail_requires_segment
    (preParts pathParts : List String) (nm : String)
    (hnostar : (preParts ++ [":" ++ nm ++ "?"]).any (headIs '*') = false)
    (hlen : preParts.length = pathParts.length) :
    extractParamsCore (preParts ++ [":" ++ nm ++ "?"]) pathParts false = none ∧
    Client.extractParams "/:a?/*r" "/" false = some [("a", ""), ("r", "")] := by
  refine ⟨?_, rfl⟩
  have hlen2 : (preParts ++ [":" ++ nm ++ "?"]).length ≠ pathParts.length := by
    simp only [List.length_append, List.length_cons, List.length_nil]
    omega
  simp only [extractParamsCore, Bool.false_eq_true, if_false]
  rw [if_pos hlen2, if_neg (by rw [hnostar]; exact Bool.false_ne_true)]

/-- Witness for C8 amended at a concrete input. -/
theorem c8_witness :
    extractParamsCore (["users"] ++ [":" ++ "tab" ++ "?"]) ["users"] false = none ∧
    Client.extractParams "/:a?/*r" "/" false = some [("a", ""), ("r", "")] :=
  c8_amended_optional_tail_requires_segment ["users"] ["users"] "tab"
    (by decide) rfl

/-! ### Loop-level lemmas about matchRoutesAsync's sibling iteration -/

theorem matchLoop_mw_redirect
    (recurse : List Route → String → String → String → List RMatch → Client.MatchResult)
    (currentPath parentPath searchString : String) (p404 : Option Comp)
    (route : Route) (rest : List Route) (collected : List RMatch)
    (pr : Rec × String) (t : Option String)
    (hmatch : Client.matchPathPattern (Client.routeFullPattern route parentPath)
        currentPath (isParentRoute route) = some pr)
    (hnored : optStrTruthy route.redirectTo = false)
    (hmwlen : 0 < route.middleware.length)
    (hmw : (executeMiddlewareChain route.middleware
        ⟨currentPath, pr.1, searchString⟩).1 = .redirect t) :
    Client.matchLoop recurse currentPath parentPath searchString p404
        (route :: rest) collected =
      { component := none, pattern := pr.2, params := pr.1,
        matchList := collected, meta := none,
        redirect := some (jsOrSlash t), page404Component := p404,
        errorElement := route.errorElement,
        middlewareResult := some (.redirect t) } := by
  simp only [Client.matchLoop]
  rw [hmatch]
  simp only [Client.matchedStep, hnored, Bool.false_eq_true, if_false,
    if_pos hmwlen, hmw, Client.mwRedirectResult]

theorem matchLoop_mw_block_skips
    (recurse : List Route → String → String → String → List RMatch → Client.MatchResult)
    (currentPath parentPath searchString : String) (p404 : Option Comp)
    (route : Route) (rest : List Route) (collected : List RMatch)
    (pr : Rec × String)
    (hmatch : Client.matchPathPattern (Client.routeFullPattern route parentPath)
        currentPath (isParentRoute route) = some pr)
    (hnored : optStrTruthy route.redirectTo = false)
    (hmwlen : 0 < route.middleware.length)
    (hmw : (executeMiddlewareChain route.middleware
        ⟨currentPath, pr.1, searchString⟩).1 = .block) :
    Client.matchLoop recurse currentPath parentPath searchString p404
        (route :: rest) collected =
      Client.matchLoop recurse currentPath parentPath searchString p404
        rest collected := by
  simp only [Client.matchLoop]
  rw [hmatch]
  simp only [Client.matchedStep, hnored, Bool.false_eq_true, if_false,
    if_pos hmwlen, hmw]

/-! ### C4: Block outcomes skip to the next sibling -/

/-- C4 counterexample: with siblings /users (whose middleware blocks) and
/:id, the pathname /users is committed to the dynamic sibling /:id with
params {id:"users"} — a sibling of the blocked route is matched in its
place, refuting the claimed truncation. -/
theorem c4_counterexample :
    (Client.matchRoutesAsync 5 c4Routes "/users" "/" "" []).component
        = some (Comp.view 2) ∧
    (Client.matchRoutesAsync 5 c4Routes "/users" "/" "" []).params
        = [("id", "users")] ∧
    ((Client.matchRoutesAsync 5 c4Routes "/users" "/" "" []).matchList.map
        (fun m => m.pattern)) = ["/:id"] :=
  ⟨rfl, rfl, rfl⟩

/-- C4 (amended): when the step chain of a matched route yields a Block
outcome, the matcher skips that route and continues with the remaining
sibling candidates in priority order (a sibling may match in its place);
only when the candidate list is exhausted does the result fall back to the
sibling-level 404 component collected for the list, which the provider
renders in place of the externally-configured not-found view. -/
theorem c4_amended_block_skips_to_next_sibling
    (recurse : List Route → String → String → String → List RMatch → Client.MatchResult)
    (currentPath parentPath searchString : String) (p404 : Option Comp)
    (route : Route) (rest : List Route) (collected : List RMatch)
    (pr : Rec × String)
    (hmatch : Client.matchPathPattern (Client.routeFullPattern route parentPath)
        currentPath (isParentRoute route) = some pr)
    (hnored : optStrTruthy route.redirectTo = false)
    (hmwlen : 0 < route.middleware.length)
    (hmw : (executeMiddlewareChain route.middleware
        ⟨currentPath, pr.1, searchString⟩).1 = .block) :
    Client.matchLoop recurse currentPath parentPath searchString p404
        (route :: rest) collected =
      Client.matchLoop recurse currentPath parentPath searchString p404
        rest collected ∧
    Client.matchLoop recurse currentPath parentPath searchString p404 [] collected
      = Client.noMatchResult collected p404 :=
  ⟨matchLoop_mw_block_skips recurse currentPath parentPath searchString p404
      route rest collected pr hmatch hnored hmwlen hmw, rfl⟩

/-- Witness for C4 amended at a concrete input: the blocked /users route of
c4Routes is skipped in favour of the sibling list tail. -/
theorem c4_witness :
    Client.matchLoop noRecurse "/users" "/" "" none
        (c4BlockedRoute :: [viewRoute "/:id" 2]) [] =
      Client.matchLoop noRecurse "/users" "/" "" none [viewRoute "/:id" 2] [] ∧
    Client.matchLoop noRecurse "/users" "/" "" none [] []
      = Client.noMatchResult [] none :=
  c4_amended_block_skips_to_next_sibling noRecurse "/users" "/" "" none
    c4BlockedRoute [viewRoute "/:id" 2] [] ([], "/users") rfl rfl
    (by decide) rfl

/-! ### C5: redirect outcomes navigate in push mode -/

/-- C5 counterexample: a committed result redirecting to /login makes the
redirect effect issue navigate("/login") with no options, which resolves to
a push-mode history call — not the claimed navigate(path, {replace:true}). -/
theorem c5_counterexample :
    handleRedirectEffect { redirect := some "/login" } ""
        = some ⟨HistoryMode.push, "/login"⟩ ∧
    HistoryMode.push ≠ HistoryMode.replace :=
  ⟨rfl, by decide⟩

theorem matchLoop_guard_redirect
    (recurse : List Route → String → String → String → List RMatch → Client.MatchResult)
    (currentPath parentPath searchString : String) (p404 : Option Comp)
    (route : Route) (rest : List Route) (collected : List RMatch)
    (pr : Rec × String)
    (hmatch : Client.matchPathPattern (Client.routeFullPattern route parentPath)
        currentPath (isParentRoute route) = some pr)
    (hnored : optStrTruthy route.redirectTo = false)
    (hmwc : (if route.middleware.length > 0
        then (executeMiddlewareChain route.middleware
          ⟨currentPath, pr.1, searchString⟩).1 else .cont) = .cont)
    (g : Guard) (hg : route.guard = some g) (sred : String)
    (hgs : g ⟨currentPath, pr.1, searchString⟩ = .ret (.str sred)) :
    Client.matchLoop recurse currentPath parentPath searchString p404
        (route :: rest) collected
      = Client.guardRedirectResult route pr.1 pr.2 sred p404 collected := by
  simp only [Client.matchLoop]
  rw [hmatch]
  simp only [Client.matchedStep, hnored, Bool.false_eq_true, if_false, hmwc]
  simp only [Client.guardCheck, hg, hgs]

/-- C5 (amended): whenever a redirect is produced for a matched route —
a middleware settling on {type:"redirect"} or a guard resolving to a path
string — the result carries that redirect, the redirecting route is not
appended to the committed match chain (the result's chain is the collected
ancestors only), and the provider's redirect effect issues navigate(path)
with no options — a push-mode history navigation, not a replace-mode one. -/
theorem c5_amended_redirect_pushes_and_excludes_route
    (mr : Client.MatchResult) (tgt : String)
    (hred : mr.redirect = some tgt) (hne : tgt ≠ "")
    (recurse : List Route → String → String → String → List RMatch → Client.MatchResult)
    (currentPath parentPath searchString : String) (p404 : Option Comp)
    (route : Route) (rest : List Route) (collected : List RMatch)
    (pr : Rec × String) (t : Option String)
    (hmatch : Client.matchPathPattern (Client.routeFullPattern route parentPath)
        currentPath (isParentRoute route) = some pr)
    (hnored : optStrTruthy route.redirectTo = false)
    (hmwlen : 0 < route.middleware.length)
    (hmw : (executeMiddlewareChain route.middleware
        ⟨currentPath, pr.1, searchString⟩).1 = .redirect t)
    (groute : Route) (grest : List Route) (gcollected : List RMatch)
    (gpr : Rec × String)
    (ghmatch : Client.matchPathPattern (Client.routeFullPattern groute parentPath)
        currentPath (isParentRoute groute) = some gpr)
    (ghnored : optStrTruthy groute.redirectTo = false)
    (ghmwc : (if groute.middleware.length > 0
        then (executeMiddlewareChain groute.middleware
          ⟨currentPath, gpr.1, searchString⟩).1 else .cont) = .cont)
    (g : Guard) (hg : groute.guard = some g) (sred : String)
    (hgs : g ⟨currentPath, gpr.1, searchString⟩ = .ret (.str sred)) :
    (handleRedirectEffect mr "").map (fun c => c.mode) = some HistoryMode.push ∧
    (Client.matchLoop recurse currentPath parentPath searchString p404
        (route :: rest) collected).matchList = collected ∧
    (Client.matchLoop recurse currentPath parentPath searchString p404
        (route :: rest) collected).redirect = some (jsOrSlash t) ∧
    (Client.matchLoop recurse currentPath parentPath searchString p404
        (groute :: grest) gcollected).matchList = gcollected ∧
    (Client.matchLoop recurse currentPath parentPath searchString p404
        (groute :: grest) gcollected).redirect = some sred := by
  refine ⟨?_, ?_, ?_, ?_, ?_⟩
  · simp [handleRedirectEffect, hred, optStrTruthy, hne, navigateCall, validateUrl]
  · rw [matchLoop_mw_redirect recurse currentPath parentPath searchString p404
      route rest collected pr t hmatch hnored hmwlen hmw]
  · rw [matchLoop_mw_redirect recurse currentPath parentPath searchString p404
      route rest collected pr t hmatch hnored hmwlen hmw]
  · rw [matchLoop_guard_redirect recurse currentPath parentPath searchString p404
      groute grest gcollected gpr ghmatch ghnored ghmwc g hg sred hgs]
    rfl
  · rw [matchLoop_guard_redirect recurse currentPath parentPath searchString p404
      groute grest gcollected gpr ghmatch ghnored ghmwc g hg sred hgs]
    rfl

/-- Witness for C5 amended at concrete inputs: the /dashboard route whose
middleware redirects to /login, and the guarded /dashboard route whose
guard resolves to the path string /login. -/
theorem c5_witness :
    (handleRedirectEffect { redirect := some "/login" } "").map (fun c => c.mode)
        = some HistoryMode.push ∧
    (Client.matchLoop noRecurse "/dashboard" "/" "" none [c5Route] []).matchList = [] ∧
    (Client.matchLoop noRecurse "/dashboard" "/" "" none [c5Route] []).redirect
        = some (jsOrSlash (some "/login")) ∧
    (Client.matchLoop noRecurse "/dashboard" "/" "" none
        [.mk (some (.str "dashboard")) (some (.view 1)) none [] (some redirectGuard)
          none none none none] []).matchList = [] ∧
    (Client.matchLoop noRecurse "/dashboard" "/" "" none
        [.mk (some (.str "dashboard")) (some (.view 1)) none [] (some redirectGuard)
          none none none none] []).redirect = some "/login" :=
  c5_amended_redirect_pushes_and_excludes_route { redirect := some "/login" }
    "/login" rfl (by decide) noRecurse "/dashboard" "/" "" none c5Route [] []
    ([], "/dashboard") (some "/login") rfl rfl (by decide) rfl
    (.mk (some (.str "dashboard")) (some (.view 1)) none [] (some redirectGuard)
      none none none none) [] [] ([], "/dashboard") rfl rfl rfl
    redirectGuard rfl "/login" rfl

/-! ### C3: superseded attempts never commit -/

theorem runNav_append (s : Nav.NavState) (a b : List Nav.NavEvent) :
    Nav.runNav s (a ++ b) = Nav.runNav (Nav.runNav s a) b := by
  induction a generalizing s with
  | nil => rfl
  | cons e rest ih => simp [Nav.runNav, ih]

theorem stepNav_aborted_mono (s : Nav.NavState) (e : Nav.NavEvent) (g : Nat)
    (h : g ∈ s.abortedGens) : g ∈ (Nav.stepNav s e).abortedGens := by
  cases e with
  | effectRun g2 =>
    simp only [Nav.stepNav, List.mem_append]
    exact Or.inl h
  | matchSettled g2 r =>
    by_cases hab : g2 ∈ s.abortedGens <;> simp [Nav.stepNav, hab, h]

theorem runNav_aborted_mono (s : Nav.NavState) (evs : List Nav.NavEvent) (g : Nat)
    (h : g ∈ s.abortedGens) : g ∈ (Nav.runNav s evs).abortedGens := by
  induction evs generalizing s with
  | nil => exact h
  | cons e rest ih => exact ih _ (stepNav_aborted_mono s e g h)

theorem stepNav_current_or_aborted (s : Nav.NavState) (e : Nav.NavEvent) (g : Nat)
    (h : s.currentGen = some g ∨ g ∈ s.abortedGens) :
    (Nav.stepNav s e).currentGen = some g ∨ g ∈ (Nav.stepNav s e).abortedGens := by
  cases e with
  | effectRun g2 =>
    rcases h with h | h
    · right
      simp only [Nav.stepNav, List.mem_append, h, Option.toList_some]
      exact Or.inr (List.mem_singleton.mpr rfl)
    · right
      simp only [Nav.stepNav, List.mem_append]
      exact Or.inl h
  | matchSettled g2 r =>
    by_cases hab : g2 ∈ s.abortedGens <;> simpa [Nav.stepNav, hab] using h

theorem runNav_current_or_aborted (s : Nav.NavState) (evs : List Nav.NavEvent)
    (g : Nat) (h : s.currentGen = some g ∨ g ∈ s.abortedGens) :
    (Nav.runNav s evs).currentGen = some g ∨ g ∈ (Nav.runNav s evs).abortedGens := by
  induction evs generalizing s with
  | nil => exact h
  | cons e rest ih => exact ih _ (stepNav_current_or_aborted s e g h)

theorem stepNav_settle_aborted_noop (s : Nav.NavState) (g : Nat)
    (r : Client.MatchResult) (h : g ∈ s.abortedGens) :
    Nav.stepNav s (.matchSettled g r) = s := by
  simp [Nav.stepNav, h]

/-- C3: if attempt G1 is superseded by attempt G2 before G1's asynchronous
matching settles, then G1's eventual settlement never mutates the
provider's observable state — removing the stale settlement from the event
trace leaves the final state (committed match result, params, loader data,
error, resolving flag) unchanged; only the attempt current at settlement
time can commit. -/
theorem c3_superseded_attempt_never_commits
    (s0 : Nav.NavState) (pre mid post : List Nav.NavEvent) (g1 g2 : Nat)
    (r : Client.MatchResult) (_hne : g1 ≠ g2) :
    Nav.runNav s0 (pre ++ [.effectRun g1] ++ mid ++ [.effectRun g2] ++ post
        ++ [.matchSettled g1 r])
      = Nav.runNav s0 (pre ++ [.effectRun g1] ++ mid ++ [.effectRun g2] ++ post) := by
  have hsplit : pre ++ [Nav.NavEvent.effectRun g1] ++ mid
      ++ [Nav.NavEvent.effectRun g2] ++ post ++ [Nav.NavEvent.matchSettled g1 r]
      = (pre ++ [Nav.NavEvent.effectRun g1] ++ mid ++ [Nav.NavEvent.effectRun g2]
          ++ post) ++ [Nav.NavEvent.matchSettled g1 r] := by
    simp [List.append_assoc]
  rw [hsplit, runNav_append]
  set sFinal := Nav.runNav s0 (pre ++ [Nav.NavEvent.effectRun g1] ++ mid
    ++ [Nav.NavEvent.effectRun g2] ++ post) with hsFinal
  have hg1 : g1 ∈ sFinal.abortedGens := by
    rw [hsFinal]
    have h1 : (Nav.runNav s0 (pre ++ [Nav.NavEvent.effectRun g1])).currentGen
        = some g1 := by
      rw [runNav_append]
      simp [Nav.runNav, Nav.stepNav]
    have h2 := runNav_current_or_aborted
      (Nav.runNav s0 (pre ++ [Nav.NavEvent.effectRun g1])) mid g1 (Or.inl h1)
    have h3 : g1 ∈ (Nav.stepNav (Nav.runNav
        (Nav.runNav s0 (pre ++ [Nav.NavEvent.effectRun g1])) mid)
        (.effectRun g2)).abortedGens := by
      rcases h2 with h2 | h2
      · simp only [Nav.stepNav, List.mem_append, h2, Option.toList_some]
        exact Or.inr (List.mem_singleton.mpr rfl)
      · exact stepNav_aborted_mono _ _ _ h2
    have h4 : Nav.runNav s0 (pre ++ [Nav.NavEvent.effectRun g1] ++ mid
        ++ [Nav.NavEvent.effectRun g2] ++ post)
        = Nav.runNav (Nav.stepNav (Nav.runNav
            (Nav.runNav s0 (pre ++ [Nav.NavEvent.effectRun g1])) mid)
            (.effectRun g2)) post := by
      rw [runNav_append, runNav_append, runNav_append]
      rfl
    rw [h4]
    exact runNav_aborted_mono _ post g1 h3
  show Nav.runNav sFinal [Nav.NavEvent.matchSettled g1 r] = sFinal
  show Nav.runNav (Nav.stepNav sFinal (.matchSettled g1 r)) [] = sFinal
  rw [stepNav_settle_aborted_noop sFinal g1 r hg1]
  rfl

/-- Witness for C3 at a concrete input: generation 0 superseded by
generation 1; the late settlement of generation 0 leaves the state
unchanged. -/
theorem c3_witness :
    Nav.runNav navState0 ([] ++ [.effectRun 0] ++ [] ++ [.effectRun 1] ++ []
        ++ [.matchSettled 0 navResult1])
      = Nav.runNav navState0 ([] ++ [.effectRun 0] ++ [] ++ [.effectRun 1] ++ []) :=
  c3_superseded_attempt_never_commits navState0 [] [] [] 0 1 navResult1 (by decide)

/-! ### C1: priority buckets -/

theorem classifyStep_staticRoutes (acc : Client.Classified) (r : Route) :
    (Client.classifyStep acc r).staticRoutes =
      if !Client.is404Route r && !Client.hasCatchAllRoute r && !Client.hasDynamicRoute r
      then acc.staticRoutes ++ [r] else acc.staticRoutes := by
  unfold Client.classifyStep
  by_cases h4 : Client.is404Route r <;> by_cases hc : Client.hasCatchAllRoute r <;>
    by_cases hd : Client.hasDynamicRoute r <;> simp [h4, hc, hd]

theorem classifyStep_dynamicRoutes (acc : Client.Classified) (r : Route) :
    (Client.classifyStep acc r).dynamicRoutes =
      if !Client.is404Route r && !Client.hasCatchAllRoute r && Client.hasDynamicRoute r
      then acc.dynamicRoutes ++ [r] else acc.dynamicRoutes := by
  unfold Client.classifyStep
  by_cases h4 : Client.is404Route r <;> by_cases hc : Client.hasCatchAllRoute r <;>
    by_cases hd : Client.hasDynamicRoute r <;> simp [h4, hc, hd]

theorem classifyStep_catchAllRoutes (acc : Client.Classified) (r : Route) :
    (Client.classifyStep acc r).catchAllRoutes =
      if !Client.is404Route r && Client.hasCatchAllRoute r
      then acc.catchAllRoutes ++ [r] else acc.catchAllRoutes := by
  unfold Client.classifyStep
  by_cases h4 : Client.is404Route r <;> by_cases hc : Client.hasCatchAllRoute r <;>
    by_cases hd : Client.hasDynamicRoute r <;> simp [h4, hc, hd]

theorem classify_buckets (rs : List Route) (acc : Client.Classified) :
    (rs.foldl Client.classifyStep acc).staticRoutes
        = acc.staticRoutes ++ rs.filter
            (fun r => !Client.is404Route r && !Client.hasCatchAllRoute r
              && !Client.hasDynamicRoute r) ∧
    (rs.foldl Client.classifyStep acc).dynamicRoutes
        = acc.dynamicRoutes ++ rs.filter
            (fun r => !Client.is404Route r && !Client.hasCatchAllRoute r
              && Client.hasDynamicRoute r) ∧
    (rs.foldl Client.classifyStep acc).catchAllRoutes
        = acc.catchAllRoutes ++ rs.filter
            (fun r => !Client.is404Route r && Client.hasCatchAllRoute r) := by
  induction rs generalizing acc with
  | nil => simp
  | cons r rest ih =>
    obtain ⟨ihS, ihD, ihC⟩ := ih (Client.classifyStep acc r)
    refine ⟨?_, ?_, ?_⟩
    · rw [List.foldl_cons, ihS, classifyStep_staticRoutes, List.filter_cons]
      by_cases h : (!Client.is404Route r && !Client.hasCatchAllRoute r
          && !Client.hasDynamicRoute r) = true <;> simp [h]
    · rw [List.foldl_cons, ihD, classifyStep_dynamicRoutes, List.filter_cons]
      by_cases h : (!Client.is404Route r && !Client.hasCatchAllRoute r
          && Client.hasDynamicRoute r) = true <;> simp [h]
    · rw [List.foldl_cons, ihC, classifyStep_catchAllRoutes, List.filter_cons]
      by_cases h : (!Client.is404Route r && Client.hasCatchAllRoute r) = true <;>
        simp [h]

theorem serverClassifyStep_staticRoutes (acc : Server.Classified) (r : Route) :
    (Server.classifyStep acc r).staticRoutes =
      if !Server.is404Route r && !Server.hasCatchAllRoute r && !Server.hasDynamicRoute r
      then acc.staticRoutes ++ [r] else acc.staticRoutes := by
  unfold Server.classifyStep
  by_cases h4 : Server.is404Route r <;> by_cases hc : Server.hasCatchAllRoute r <;>
    by_cases hd : Server.hasDynamicRoute r <;> simp [h4, hc, hd]

theorem serverClassifyStep_dynamicRoutes (acc : Server.Classified) (r : Route) :
    (Server.classifyStep acc r).dynamicRoutes =
      if !Server.is404Route r && !Server.hasCatchAllRoute r && Server.hasDynamicRoute r
      then acc.dynamicRoutes ++ [r] else acc.dynamicRoutes := by
  unfold Server.classifyStep
  by_cases h4 : Server.is404Route r <;> by_cases hc : Server.hasCatchAllRoute r <;>
    by_cases hd : Server.hasDynamicRoute r <;> simp [h4, hc, hd]

theorem serverClassifyStep_catchAllRoutes (acc : Server.Classified) (r : Route) :
    (Server.classifyStep acc r).catchAllRoutes =
      if !Server.is404Route r && Server.hasCatchAllRoute r
      then acc.catchAllRoutes ++ [r] else acc.catchAllRoutes := by
  unfold Server.classifyStep
  by_cases h4 : Server.is404Route r <;> by_cases hc : Server.hasCatchAllRoute r <;>
    by_cases hd : Server.hasDynamicRoute r <;> simp [h4, hc, hd]

theorem serverClassify_buckets (rs : List Route) (acc : Server.Classified) :
    (rs.foldl Server.classifyStep acc).staticRoutes
        = acc.staticRoutes ++ rs.filter
            (fun r => !Server.is404Route r && !Server.hasCatchAllRoute r
              && !Server.hasDynamicRoute r) ∧
    (rs.foldl Server.classifyStep acc).dynamicRoutes
        = acc.dynamicRoutes ++ rs.filter
            (fun r => !Server.is404Route r && !Server.hasCatchAllRoute r
              && Server.hasDynamicRoute r) ∧
    (rs.foldl Server.classifyStep acc).catchAllRoutes
        = acc.catchAllRoutes ++ rs.filter
            (fun r => !Server.is404Route r && Server.hasCatchAllRoute r) := by
  induction rs generalizing acc with
  | nil => simp
  | cons r rest ih =>
    obtain ⟨ihS, ihD, ihC⟩ := ih (Server.classifyStep acc r)
    refine ⟨?_, ?_, ?_⟩
    · rw [List.foldl_cons, ihS, serverClassifyStep_staticRoutes, List.filter_cons]
      by_cases h : (!Server.is404Route r && !Server.hasCatchAllRoute r
          && !Server.hasDynamicRoute r) = true <;> simp [h]
    · rw [List.foldl_cons, ihD, serverClassifyStep_dynamicRoutes, List.filter_cons]
      by_cases h : (!Server.is404Route r && !Server.hasCatchAllRoute r
          && Server.hasDynamicRoute r) = true <;> simp [h]
    · rw [List.foldl_cons, ihC, serverClassifyStep_catchAllRoutes, List.filter_cons]
      by_cases h : (!Server.is404Route r && Server.hasCatchAllRoute r) = true <;>
        simp [h]

/-- C1: both matchers evaluate sibling candidates in three ordered buckets
— non-404 routes with neither ':' nor '*' in any alias first, then routes
with ':' but no '*', then routes with '*' — each bucket preserving
declaration order (List.filter keeps relative order); and for the sibling
patterns /users, /:id, /*rest, the pathname /users is committed to the
static sibling, never the dynamic or catch-all one. -/
theorem c1_priority_buckets :
    (∀ rs : List Route,
      Client.orderedRoutes rs =
        rs.filter (fun r => !Client.is404Route r && !Client.hasCatchAllRoute r
            && !Client.hasDynamicRoute r)
          ++ rs.filter (fun r => !Client.is404Route r && !Client.hasCatchAllRoute r
            && Client.hasDynamicRoute r)
          ++ rs.filter (fun r => !Client.is404Route r && Client.hasCatchAllRoute r)) ∧
    (∀ rs : List Route,
      Server.orderedRoutes rs =
        rs.filter (fun r => !Server.is404Route r && !Server.hasCatchAllRoute r
            && !Server.hasDynamicRoute r)
          ++ rs.filter (fun r => !Server.is404Route r && !Server.hasCatchAllRoute r
            && Server.hasDynamicRoute r)
          ++ rs.filter (fun r => !Server.is404Route r && Server.hasCatchAllRoute r)) ∧
    (Client.matchRoutesAsync 5 c1Routes "/users" "/" "" []).component
        = some (Comp.view 1) ∧
    ((Client.matchRoutesAsync 5 c1Routes "/users" "/" "" []).matchList.map
        (fun m => m.pattern)) = ["/users"] := by
  refine ⟨?_, ?_, rfl, rfl⟩
  · intro rs
    obtain ⟨hS, hD, hC⟩ := classify_buckets rs ⟨[], [], [], none⟩
    unfold Client.orderedRoutes Client.classify
    rw [hS, hD, hC]
    simp
  · intro rs
    obtain ⟨hS, hD, hC⟩ := serverClassify_buckets rs ⟨[], [], []⟩
    unfold Server.orderedRoutes Server.classify
    rw [hS, hD, hC]
    simp

/-! ### C9: normalization is idempotent -/

theorem head_dropWhileSlash (l : List Char) :
    (l.dropWhile (fun c => c = '/')).head? ≠ some '/' := by
  induction l with
  | nil => simp
  | cons c rest ih =>
    by_cases h : c = '/' <;> simp [List.dropWhile_cons, h, ih]

theorem normalizeOne_ok (p : String) :
    headIs '/' (Normalizer.normalizeOne p) = false ∧
      Normalizer.normalizeOne p ≠ "/" := by
  unfold Normalizer.normalizeOne
  by_cases h1 : p = ""
  · simp [h1, headIs]
  by_cases h2 : p = "/"
  · simp [h1, h2, headIs]
  by_cases h3 : headIs '/' p
  · simp only [h1, h2, h3, if_false, if_true]
    constructor
    · have := head_dropWhileSlash p.data
      simp only [headIs, beq_eq_false_iff_ne, ne_eq]
      exact this
    · intro hc
      have : (ofChars (p.data.dropWhile (fun c => c = '/'))).data = ['/'] := by
        rw [hc]
      have h4 : (p.data.dropWhile (fun c => c = '/')).head? = some '/' := by
        have hdata : p.data.dropWhile (fun c => c = '/') = ['/'] := this
        rw [hdata]; rfl
      exact head_dropWhileSlash p.data h4
  · simp only [h1, h2, h3, if_false]
    exact ⟨by simpa using h3, h2⟩

theorem joinPipe_ok (ps : List String)
    (h : ∀ p ∈ ps, headIs '/' p = false ∧ p ≠ "/") :
    headIs '/' (joinWith "|" ps) = false ∧ joinWith "|" ps ≠ "/" := by
  match ps with
  | [] => exact ⟨rfl, by decide⟩
  | [x] => exact h x (by simp)
  | x :: y :: rest =>
    have hx := h x (by simp)
    have hdata : (joinWith "|" (x :: y :: rest)).data
        = x.data ++ '|' :: (joinWith "|" (y :: rest)).data := by
      show (x ++ "|" ++ joinWith "|" (y :: rest)).data = _
      rw [String.data_append, String.data_append]
      have hbar : ("|" : String).data = ['|'] := rfl
      rw [hbar, List.append_assoc]
      rfl
    constructor
    · unfold headIs
      rw [hdata]
      cases hxd : x.data with
      | nil => rfl
      | cons c cs =>
        have hx1 := hx.1
        unfold headIs at hx1
        rw [hxd] at hx1
        simpa using hx1
    · intro hc
      have hlist : (joinWith "|" (x :: y :: rest)).data = ['/'] := by rw [hc]
      rw [hdata] at hlist
      cases hxd : x.data with
      | nil =>
        rw [hxd] at hlist
        simp at hlist
      | cons c cs =>
        rw [hxd] at hlist
        have hlen := congrArg List.length hlist
        simp at hlen

theorem normalizePath24_ok (x : Option PathVal) :
    headIs '/' (Normalizer.normalizePath x) = false ∧
      Normalizer.normalizePath x ≠ "/" := by
  match x with
  | none => exact ⟨rfl, by decide⟩
  | some (.str s) => exact normalizeOne_ok s
  | some (.arr l) =>
    exact joinPipe_ok (l.map Normalizer.normalizeOne)
      (fun p hp => by
        rcases List.mem_map.mp hp with ⟨q, _, hq⟩
        rw [← hq]
        exact normalizeOne_ok q)

theorem normalizeOne_fix (s : String) (h1 : headIs '/' s = false) (h2 : s ≠ "/") :
    Normalizer.normalizeOne s = s := by
  unfold Normalizer.normalizeOne
  by_cases h0 : s = ""
  · simp [h0]
  · simp [h0, h2, h1]

theorem normalizePath24_idem (x : Option PathVal) :
    Normalizer.normalizePath (some (.str (Normalizer.normalizePath x)))
      = Normalizer.normalizePath x := by
  have h := normalizePath24_ok x
  exact normalizeOne_fix _ h.1 h.2

theorem normalizeRoutes_length (fuel : Nat) (rs : List Route) :
    (Normalizer.normalizeRoutes fuel rs).length = rs.length := by
  cases fuel <;> simp [Normalizer.normalizeRoutes]

/-- C9: route-tree normalization is idempotent — applying normalizeRoutes,
as invoked by createRouter, twice yields exactly the same route structure
as applying it once, for every recursion budget and route list. -/
theorem c9_normalization_idempotent :
    ∀ (fuel : Nat) (rs : List Route),
      Normalizer.createRouter fuel (Normalizer.createRouter fuel rs)
        = Normalizer.createRouter fuel rs := by
  intro fuel
  induction fuel with
  | zero => intro rs; rfl
  | succ n ih =>
    intro rs
    show Normalizer.normalizeRoutes (n + 1) (Normalizer.normalizeRoutes (n + 1) rs)
        = Normalizer.normalizeRoutes (n + 1) rs
    simp only [Normalizer.normalizeRoutes, List.map_map]
    apply List.map_congr_left
    intro r _
    show Normalizer.normalizeRoute (Normalizer.normalizeRoutes n)
        (Normalizer.normalizeRoute (Normalizer.normalizeRoutes n) r)
      = Normalizer.normalizeRoute (Normalizer.normalizeRoutes n) r
    have ih' : ∀ cs, Normalizer.normalizeRoutes n (Normalizer.normalizeRoutes n cs)
        = Normalizer.normalizeRoutes n cs := ih
    cases r with
    | mk p comp ch mw g rd ld mt ee =>
      unfold Normalizer.normalizeRoute
      simp only [Route.path, Route.children]
      rw [normalizePath24_idem]
      cases ch with
      | none => rfl
      | some cs =>
        by_cases hlen : cs.length > 0
        · have hlen2 : (Normalizer.normalizeRoutes n cs).length > 0 := by
            rw [normalizeRoutes_length]; exact hlen
          simp only [hlen, if_true, hlen2, ih' cs, Route.component, Route.middleware,
            Route.guard, Route.redirectTo, Route.loader, Route.meta, Route.errorElement]
        · simp only [hlen, if_false, Route.component, Route.middleware,
            Route.guard, Route.redirectTo, Route.loader, Route.meta,
            Route.errorElement]

/-! ### C2: committed params against the chain -/

theorem extractParamsLoop_nodup (pathParts : List String) :
    ∀ (pats : List String) (i : Nat) (params res : Rec),
      NodupKeys params → extractParamsLoop pathParts pats i params = some res →
      NodupKeys res := by
  intro pats
  induction pats with
  | nil =>
    intro i params res h heq
    cases heq
    exact h
  | cons pp rest ih =>
    intro i params res h heq
    unfold extractParamsLoop at heq
    dsimp only at heq
    split at heq
    · cases heq
      exact nodupKeys_rset _ _ _ h
    · split at heq
      · split at heq
        · exact ih _ _ _ (nodupKeys_rset _ _ _ h) heq
        · split at heq
          · cases heq
          · exact ih _ _ _ (nodupKeys_rset _ _ _ h) heq
      · split at heq
        · split at heq
          · exact ih _ _ _ h heq
          · cases heq
        · cases heq

theorem extractParamsCore_nodup (pp qq : List String) (b : Bool) (res : Rec)
    (h : extractParamsCore pp qq b = some res) : NodupKeys res := by
  have hnil : NodupKeys ([] : Rec) := by simp [NodupKeys]
  unfold extractParamsCore at h
  by_cases hb : b = true
  · subst hb
    rw [if_pos rfl] at h
    by_cases hlen : pp.length > qq.length
    · rw [if_pos hlen] at h; cases h
    · rw [if_neg hlen] at h
      exact extractParamsLoop_nodup qq pp 0 [] res hnil h
  · have hb2 : b = false := by cases b <;> simp_all
    subst hb2
    simp only [Bool.false_eq_true, if_false] at h
    by_cases hlen : pp.length ≠ qq.length
    · rw [if_pos hlen] at h
      by_cases hca : pp.any (headIs '*') = true
      · rw [if_pos hca] at h
        exact extractParamsLoop_nodup qq pp 0 [] res hnil h
      · rw [if_neg hca] at h; cases h
    · rw [if_neg hlen] at h
      exact extractParamsLoop_nodup qq pp 0 [] res hnil h

theorem clientExtractParams_nodup (pattern pathname : String) (b : Bool) (res : Rec)
    (h : Client.extractParams pattern pathname b = some res) : NodupKeys res := by
  unfold Client.extractParams at h
  by_cases hboth : (splitSlash (if pattern = "/" then "" else pattern)).isEmpty
      ∧ (splitSlash (if pathname = "/" then "" else pathname)).isEmpty
  · rw [if_pos hboth] at h
    cases h
    simp [NodupKeys]
  · rw [if_neg hboth] at h
    exact extractParamsCore_nodup _ _ _ _ h

theorem tryPats_nodup (cp : String) (b : Bool) :
    ∀ (pats : List String) (pr : Rec × String),
      Client.tryPats cp b pats = some pr → NodupKeys pr.1 := by
  intro pats
  induction pats with
  | nil => intro pr h; cases h
  | cons pat rest ih =>
    intro pr h
    simp only [Client.tryPats] at h
    split at h
    · cases h
      rename_i ps hps
      exact clientExtractParams_nodup _ _ _ _ hps
    · exact ih pr h

theorem matchPathPattern_nodup (pat cp : String) (b : Bool) (pr : Rec × String)
    (h : Client.matchPathPattern pat cp b = some pr) : NodupKeys pr.1 :=
  tryPats_nodup cp b (splitPipe pat) pr h

theorem chainLookup_foldl (l : List RMatch) (k : String) (init : Option String) :
    List.foldl (fun acc m =>
      match rget m.params k with
      | some v => some v
      | none => acc) init l
    = match chainLookup l k with
      | some v => some v
      | none => init := by
  induction l generalizing init with
  | nil => simp [chainLookup]
  | cons m rest ih =>
    rw [List.foldl_cons, ih]
    have hcons : chainLookup (m :: rest) k
        = match chainLookup rest k with
          | some v => some v
          | none =>
            match rget m.params k with
            | some v => some v
            | none => none := by
      have h1 : chainLookup (m :: rest) k
          = List.foldl (fun acc m2 =>
              match rget m2.params k with
              | some v => some v
              | none => acc)
            (match rget m.params k with | some v => some v | none => none) rest := rfl
      rw [h1, ih]
    rw [hcons]
    cases chainLookup rest k <;> cases rget m.params k <;> rfl

theorem chainLookup_cons (m : RMatch) (l : List RMatch) (k : String) :
    chainLookup (m :: l) k
      = match chainLookup l k with
        | some v => some v
        | none => rget m.params k := by
  have h1 : chainLookup (m :: l) k
      = List.foldl (fun acc m2 =>
          match rget m2.params k with
          | some v => some v
          | none => acc)
        (match rget m.params k with | some v => some v | none => none) l := rfl
  rw [h1, chainLookup_foldl]
  cases chainLookup l k <;> cases rget m.params k <;> rfl

theorem chainParamsInv_noMatch (collected : List RMatch) (p404 : Option Comp) :
    ChainParamsInv (Client.noMatchResult collected p404) collected := by
  refine ⟨rfl, by simp [Client.noMatchResult], ?_⟩
  intro _
  refine ⟨[], by simp [Client.noMatchResult],
    by simp [Client.noMatchResult, NodupKeys], fun k => rfl⟩

theorem chainParamsInv_guardError (route : Route) (mrP : Rec) (mrPat : String)
    (p404 : Option Comp) (collected : List RMatch) :
    ChainParamsInv (Client.guardErrorResult route mrP mrPat p404 collected) collected := by
  refine ⟨rfl, fun _ => rfl, ?_⟩
  intro h
  cases h

theorem chainParamsInv_terminal (route : Route) (mrP : Rec) (mrPat cp pp : String)
    (p404 : Option Comp) (collected : List RMatch) (hnodup : NodupKeys mrP) :
    ChainParamsInv (Client.terminalResult route mrP mrPat
      (collected ++ [⟨route, mrP, cp, pp, mrPat⟩]) p404) collected := by
  refine ⟨rfl, by simp [Client.terminalResult], ?_⟩
  intro _
  refine ⟨[⟨route, mrP, cp, pp, mrPat⟩], rfl, hnodup, ?_⟩
  intro k
  show rget mrP k = chainLookup [⟨route, mrP, cp, pp, mrPat⟩] k
  rw [chainLookup_cons]
  cases rget mrP k <;> rfl

theorem chainParamsInv_finishMatched (fuel : Nat) (cp ss : String)
    (ihfuel : ∀ rs pp col, sizeOf rs < fuel → (∀ r ∈ rs, NoRedirectRoute r) →
      ChainParamsInv (Client.matchRoutesAsync fuel rs cp pp ss col) col)
    (route : Route) (pp : String) (p404 : Option Comp) (collected : List RMatch)
    (mrP : Rec) (mrPat : String) (hnodup : NodupKeys mrP)
    (hch : ∀ cs, route.children = some cs → ∀ c ∈ cs, NoRedirectRoute c)
    (hchsz : ∀ cs, route.children = some cs → sizeOf cs < fuel) :
    ChainParamsInv (Client.finishMatched (Client.matchRoutesAsync fuel) route mrP
      mrPat cp pp ss (Client.routeFullPath route pp) p404 collected) collected := by
  unfold Client.finishMatched
  cases hc : route.children with
  | none => exact chainParamsInv_terminal route mrP mrPat cp pp p404 collected hnodup
  | some cs =>
    by_cases hlen : cs.length > 0
    · simp only [hlen, if_true]
      have hinv := ihfuel cs (Client.routeFullPath route pp)
        (collected ++ [⟨route, mrP, cp, pp, mrPat⟩]) (hchsz cs hc) (hch cs hc)
      by_cases htr : (Client.matchRoutesAsync fuel cs cp (Client.routeFullPath route pp)
          ss (collected ++ [⟨route, mrP, cp, pp, mrPat⟩])).component.isSome
        ∨ optStrTruthy (Client.matchRoutesAsync fuel cs cp (Client.routeFullPath route pp)
          ss (collected ++ [⟨route, mrP, cp, pp, mrPat⟩])).redirect
      · simp only [htr, if_true]
        obtain ⟨hred, herrcomp, hstruct⟩ := hinv
        have hcomp : (Client.matchRoutesAsync fuel cs cp (Client.routeFullPath route pp)
            ss (collected ++ [⟨route, mrP, cp, pp, mrPat⟩])).component.isSome := by
          rcases htr with h | h
          · exact h
          · rw [hred] at h
            simp [optStrTruthy] at h
        have herr : (Client.matchRoutesAsync fuel cs cp (Client.routeFullPath route pp)
            ss (collected ++ [⟨route, mrP, cp, pp, mrPat⟩])).error = none := by
          cases he : (Client.matchRoutesAsync fuel cs cp (Client.routeFullPath route pp)
              ss (collected ++ [⟨route, mrP, cp, pp, mrPat⟩])).error with
          | none => rfl
          | some u =>
            have hcn := herrcomp (by simp [he])
            rw [hcn] at hcomp
            simp at hcomp
        obtain ⟨extraC, hml, hnd, hlk⟩ := hstruct herr
        refine ⟨rfl, by simp, ?_⟩
        intro _
        refine ⟨⟨route, mrP, cp, pp, mrPat⟩ :: extraC, ?_, ?_, ?_⟩
        · show (Client.matchRoutesAsync fuel cs cp (Client.routeFullPath route pp)
              ss (collected ++ [⟨route, mrP, cp, pp, mrPat⟩])).matchList = _
          rw [hml, List.append_assoc]
          rfl
        · exact nodupKeys_rmerge _ _ hnodup
        · intro k
          show rget (rmerge mrP (Client.matchRoutesAsync fuel cs cp
              (Client.routeFullPath route pp) ss
              (collected ++ [⟨route, mrP, cp, pp, mrPat⟩])).params) k = _
          rw [rget_rmerge _ _ _ hnd, chainLookup_cons, hlk k]
      · simp only [htr, if_false]
        exact chainParamsInv_terminal route mrP mrPat cp pp p404 collected hnodup
    · simp only [hlen, if_false]
      exact chainParamsInv_terminal route mrP mrPat cp pp p404 collected hnodup

theorem chainParamsInv_guardCheck (fuel : Nat) (cp ss : String)
    (ihfuel : ∀ rs pp col, sizeOf rs < fuel → (∀ r ∈ rs, NoRedirectRoute r) →
      ChainParamsInv (Client.matchRoutesAsync fuel rs cp pp ss col) col)
    (route : Route) (pp : String) (p404 : Option Comp) (collected : List RMatch)
    (mrP : Rec) (mrPat : String) (skip : Client.MatchResult) (hnodup : NodupKeys mrP)
    (hguard : ∀ g, route.guard = some g → ∀ ctx s, g ctx ≠ .ret (.str s))
    (hch : ∀ cs, route.children = some cs → ∀ c ∈ cs, NoRedirectRoute c)
    (hchsz : ∀ cs, route.children = some cs → sizeOf cs < fuel)
    (hskip : ChainParamsInv skip collected) :
    ChainParamsInv (Client.guardCheck (Client.matchRoutesAsync fuel) route mrP mrPat
      cp pp ss p404 collected skip) collected := by
  cases hg : route.guard with
  | none =>
    have hstep : Client.guardCheck (Client.matchRoutesAsync fuel) route mrP mrPat
        cp pp ss p404 collected skip
        = Client.finishMatched (Client.matchRoutesAsync fuel) route mrP mrPat cp pp
          ss (Client.routeFullPath route pp) p404 collected := by
      unfold Client.guardCheck
      rw [hg]
    rw [hstep]
    exact chainParamsInv_finishMatched fuel cp ss ihfuel route pp p404 collected
      mrP mrPat hnodup hch hchsz
  | some g =>
    have hstep : Client.guardCheck (Client.matchRoutesAsync fuel) route mrP mrPat
        cp pp ss p404 collected skip
        = match g ⟨cp, mrP, ss⟩ with
          | .raise => Client.guardErrorResult route mrP mrPat p404 collected
          | .ret (.str s) => Client.guardRedirectResult route mrP mrPat s p404 collected
          | .ret (.boolean false) => skip
          | .ret _ =>
            Client.finishMatched (Client.matchRoutesAsync fuel) route mrP mrPat cp pp
              ss (Client.routeFullPath route pp) p404 collected := by
      unfold Client.guardCheck
      rw [hg]
    rw [hstep]
    cases hgb : g ⟨cp, mrP, ss⟩ with
    | raise => exact chainParamsInv_guardError route mrP mrPat p404 collected
    | ret v =>
      cases v with
      | str s => exact absurd hgb (hguard g hg _ s)
      | boolean b =>
        cases b with
        | false => exact hskip
        | true =>
          exact chainParamsInv_finishMatched fuel cp ss ihfuel route pp p404
            collected mrP mrPat hnodup hch hchsz
      | other =>
        exact chainParamsInv_finishMatched fuel cp ss ihfuel route pp p404
          collected mrP mrPat hnodup hch hchsz

theorem chainParamsInv_matchedStep (fuel : Nat) (cp ss : String)
    (ihfuel : ∀ rs pp col, sizeOf rs < fuel → (∀ r ∈ rs, NoRedirectRoute r) →
      ChainParamsInv (Client.matchRoutesAsync fuel rs cp pp ss col) col)
    (route : Route) (pp : String) (p404 : Option Comp) (collected : List RMatch)
    (mrP : Rec) (mrPat : String) (skip : Client.MatchResult) (hnodup : NodupKeys mrP)
    (hredir : optStrTruthy route.redirectTo = false)
    (hmw : ∀ ctx t, (executeMiddlewareChain route.middleware ctx).1
      ≠ MiddlewareResult.redirect t)
    (hguard : ∀ g, route.guard = some g → ∀ ctx s, g ctx ≠ .ret (.str s))
    (hch : ∀ cs, route.children = some cs → ∀ c ∈ cs, NoRedirectRoute c)
    (hchsz : ∀ cs, route.children = some cs → sizeOf cs < fuel)
    (hskip : ChainParamsInv skip collected) :
    ChainParamsInv (Client.matchedStep (Client.matchRoutesAsync fuel) route mrP mrPat
      cp pp ss p404 collected skip) collected := by
  unfold Client.matchedStep
  rw [hredir]
  simp only [Bool.false_eq_true, if_false]
  cases hmv : (if route.middleware.length > 0
      then (executeMiddlewareChain route.middleware ⟨cp, mrP, ss⟩).1 else .cont) with
  | redirect t =>
    exfalso
    by_cases hl : route.middleware.length > 0
    · rw [if_pos hl] at hmv
      exact hmw _ t hmv
    · rw [if_neg hl] at hmv
      cases hmv
  | block => exact hskip
  | cont =>
    exact chainParamsInv_guardCheck fuel cp ss ihfuel route pp p404 collected
      mrP mrPat skip hnodup hguard hch hchsz hskip

theorem chainParamsInv_unmatchedStep (fuel : Nat) (cp ss : String)
    (ihfuel : ∀ rs pp col, sizeOf rs < fuel → (∀ r ∈ rs, NoRedirectRoute r) →
      ChainParamsInv (Client.matchRoutesAsync fuel rs cp pp ss col) col)
    (route : Route) (pp : String) (p404 : Option Comp) (collected : List RMatch)
    (skip : Client.MatchResult)
    (hch : ∀ cs, route.children = some cs → ∀ c ∈ cs, NoRedirectRoute c)
    (hchsz : ∀ cs, route.children = some cs → sizeOf cs < fuel)
    (hskip : ChainParamsInv skip collected) :
    ChainParamsInv (Client.unmatchedStep (Client.matchRoutesAsync fuel) route
      cp pp ss p404 collected skip) collected := by
  unfold Client.unmatchedStep
  cases hc : route.children with
  | none => exact hskip
  | some cs =>
    have hinv := ihfuel cs (Client.routeFullPath route pp) collected
      (hchsz cs hc) (hch cs hc)
    by_cases htr : (Client.matchRoutesAsync fuel cs cp (Client.routeFullPath route pp)
        ss collected).component.isSome
      ∨ optStrTruthy (Client.matchRoutesAsync fuel cs cp (Client.routeFullPath route pp)
        ss collected).redirect
    · simp only [htr, if_true]
      obtain ⟨h1, h2, h3⟩ := hinv
      exact ⟨h1, h2, h3⟩
    · simp only [htr, if_false]
      exact hskip

theorem chainParamsInv_matchLoop (fuel : Nat) (cp ss : String)
    (ihfuel : ∀ rs pp col, sizeOf rs < fuel → (∀ r ∈ rs, NoRedirectRoute r) →
      ChainParamsInv (Client.matchRoutesAsync fuel rs cp pp ss col) col) :
    ∀ (ordered : List Route) (pp : String) (p404 : Option Comp)
      (collected : List RMatch),
      (∀ r ∈ ordered, NoRedirectRoute r ∧
        (∀ cs, r.children = some cs → sizeOf cs < fuel)) →
      ChainParamsInv (Client.matchLoop (Client.matchRoutesAsync fuel) cp pp ss p404
        ordered collected) collected := by
  intro ordered
  induction ordered with
  | nil =>
    intro pp p404 collected _
    exact chainParamsInv_noMatch collected p404
  | cons route rest ih =>
    intro pp p404 collected hall
    obtain ⟨hnr, hchsz⟩ := hall route (List.mem_cons_self _ _)
    have hskip := ih pp p404 collected (fun r hr => hall r (List.mem_cons_of_mem _ hr))
    cases hnr with
    | intro _ hredir hmw hguard hch =>
      simp only [Client.matchLoop]
      cases hmp : Client.matchPathPattern (Client.routeFullPattern route pp) cp
          (isParentRoute route) with
      | some pr =>
        exact chainParamsInv_matchedStep fuel cp ss ihfuel route pp p404 collected
          pr.1 pr.2 _ (matchPathPattern_nodup _ _ _ _ hmp) hredir hmw hguard hch
          hchsz hskip
      | none =>
        exact chainParamsInv_unmatchedStep fuel cp ss ihfuel route pp p404 collected
          _ hch hchsz hskip

theorem route_children_sizeOf (r : Route) (cs : List Route)
    (h : r.children = some cs) : sizeOf cs < sizeOf r := by
  cases r with
  | mk p c ch mw g rd ld mt ee =>
    simp only [Route.children] at h
    subst h
    simp
    omega

theorem mem_ordered_mem (rs : List Route) (r : Route)
    (h : r ∈ (Client.classify rs).staticRoutes ++ (Client.classify rs).dynamicRoutes
        ++ (Client.classify rs).catchAllRoutes) : r ∈ rs := by
  obtain ⟨hS, hD, hC⟩ := classify_buckets rs ⟨[], [], [], none⟩
  have hS2 : (Client.classify rs).staticRoutes = rs.filter
      (fun r => !Client.is404Route r && !Client.hasCatchAllRoute r
        && !Client.hasDynamicRoute r) := by
    rw [show Client.classify rs = rs.foldl Client.classifyStep ⟨[], [], [], none⟩ from rfl,
      hS]
    rfl
  have hD2 : (Client.classify rs).dynamicRoutes = rs.filter
      (fun r => !Client.is404Route r && !Client.hasCatchAllRoute r
        && Client.hasDynamicRoute r) := by
    rw [show Client.classify rs = rs.foldl Client.classifyStep ⟨[], [], [], none⟩ from rfl,
      hD]
    rfl
  have hC2 : (Client.classify rs).catchAllRoutes = rs.filter
      (fun r => !Client.is404Route r && Client.hasCatchAllRoute r) := by
    rw [show Client.classify rs = rs.foldl Client.classifyStep ⟨[], [], [], none⟩ from rfl,
      hC]
    rfl
  rw [hS2, hD2, hC2] at h
  simp only [List.mem_append] at h
  rcases h with (h | h) | h <;> exact List.mem_of_mem_filter h

/-- C2 (amended): for every route tree none of whose routes can produce a
redirect (falsy redirectTo, middleware never settling on a redirect, guards
never resolving to a path string), every error-free result of
matchRoutesAsync extends the collected ancestor chain and commits a params
map that is exactly the deepest-wins union of the appended levels' params
maps — no parent key is dropped unless re-declared deeper, and on key
collision the deepest level wins. -/
theorem c2_amended_params_deepest_wins :
    ∀ (fuel : Nat) (rs : List Route) (cp pp ss : String) (collected : List RMatch),
      sizeOf rs < fuel → (∀ r ∈ rs, NoRedirectRoute r) →
      ChainParamsInv (Client.matchRoutesAsync fuel rs cp pp ss collected) collected := by
  intro fuel
  induction fuel with
  | zero =>
    intro rs cp pp ss col h _
    exact absurd h (Nat.not_lt_zero _)
  | succ n ih =>
    intro rs cp pp ss collected hsz hnr
    show ChainParamsInv (Client.matchLoop (Client.matchRoutesAsync n) cp pp ss
      (Client.classify rs).page404Component
      ((Client.classify rs).staticRoutes ++ (Client.classify rs).dynamicRoutes
        ++ (Client.classify rs).catchAllRoutes) collected) collected
    apply chainParamsInv_matchLoop n cp ss
      (fun rs2 pp2 col2 hsz2 hnr2 => ih rs2 cp pp2 ss col2 hsz2 hnr2)
    intro r hr
    have hmem : r ∈ rs := mem_ordered_mem rs r hr
    refine ⟨hnr r hmem, ?_⟩
    intro cs hcs
    have h1 : sizeOf r < sizeOf rs := List.sizeOf_lt_of_mem hmem
    have h2 : sizeOf cs < sizeOf r := route_children_sizeOf r cs hcs
    omega

/-- C2 counterexample: in c2Routes the matched parent /:a absorbs its child
:b's redirectTo result (dropping the redirect), producing a committed
result — no redirect, no error — whose params bind b to "2" although the
committed chain consists of the parent level only, whose params are
{a:"1"}: the committed params are not the union of the per-level params of
the chain. -/
theorem c2_counterexample :
    (Client.matchRoutesAsync 5 c2Routes "/1/2" "/" "" []).redirect = none ∧
    (Client.matchRoutesAsync 5 c2Routes "/1/2" "/" "" []).error = none ∧
    rget (Client.matchRoutesAsync 5 c2Routes "/1/2" "/" "" []).params "b" = some "2" ∧
    ((Client.matchRoutesAsync 5 c2Routes "/1/2" "/" "" []).matchList.map
      (fun m => m.params)) = [[("a", "1")]] ∧
    chainLookup (Client.matchRoutesAsync 5 c2Routes "/1/2" "/" "" []).matchList "b"
      = none :=
  ⟨rfl, rfl, rfl, rfl, rfl⟩

theorem noRedirectRoute_of_parts (r : Route)
    (h1 : optStrTruthy r.redirectTo = false)
    (h2 : r.middleware = []) (h3 : r.guard = none)
    (h4 : ∀ cs, r.children = some cs → ∀ c ∈ cs, NoRedirectRoute c) :
    NoRedirectRoute r := by
  refine NoRedirectRoute.intro r h1 ?_ ?_ h4
  · intro ctx t
    rw [h2]
    simp [executeMiddlewareChain]
  · intro g hg
    rw [h3] at hg
    cases hg

theorem noRedirectRoute_viewRoute (p : String) (c : Nat) :
    NoRedirectRoute (viewRoute p c) := by
  refine noRedirectRoute_of_parts _ rfl rfl rfl ?_
  intro cs hcs
  cases hcs

/-- Witness for C2 amended at a concrete input: the two-level chain tree. -/
theorem c2_witness :
    ChainParamsInv (Client.matchRoutesAsync 3000 c2ChainRoutes "/1/x" "/" "" []) [] :=
  c2_amended_params_deepest_wins 3000 c2ChainRoutes "/1/x" "/" "" [] (by decide)
    (by
      intro r hr
      simp only [c2ChainRoutes, List.mem_singleton] at hr
      subst hr
      refine noRedirectRoute_of_parts _ rfl rfl rfl ?_
      intro cs hcs c hc
      cases hcs
      simp only [List.mem_singleton] at hc
      subst hc
      exact noRedirectRoute_viewRoute _ _)

/-! ### C7: string-level lemmas for the plain-tree equivalence -/

theorem contains_cons_char (a : Char) (l : List Char) (x : Char) :
    (a :: l).contains x = (x == a || l.contains x) := by
  cases h : x == a <;> simp [List.contains, List.elem, h]

theorem splitSepAux_no_sep (sep : Char) :
    ∀ (l acc : List Char), l.contains sep = false →
      splitSepAux sep l acc = [(acc.reverse ++ l)] := by
  intro l
  induction l with
  | nil => intro acc _; simp [splitSepAux]
  | cons c rest ih =>
    intro acc h
    rw [contains_cons_char] at h
    have hc : (sep == c) = false := by
      cases hx : sep == c <;> simp_all
    have hrest : rest.contains sep = false := by
      cases hx : rest.contains sep <;> simp_all
    have hcne : ¬ c = sep := by
      intro he
      subst he
      simp at hc
    unfold splitSepAux
    rw [if_neg hcne, ih (c :: acc) hrest]
    simp

theorem splitPipe_singleton (s : String) (h : containsChar '|' s = false) :
    splitPipe s = [s] := by
  unfold splitPipe splitSep
  rw [splitSepAux_no_sep '|' s.data [] h]
  simp [ofChars]

theorem collapseAux_append (a b : List Char) (f : Bool) :
    Client.collapseSlashesAux (a ++ b) f
      = Client.collapseSlashesAux a f ++ Client.collapseSlashesAux b (endSlash a f) := by
  induction a generalizing f with
  | nil => simp [Client.collapseSlashesAux, endSlash]
  | cons c rest ih =>
    have hend : endSlash (c :: rest) f = endSlash rest (c == '/') := by
      cases rest with
      | nil => simp [endSlash]
      | cons d ds =>
        unfold endSlash
        have h1 : (c :: d :: ds).getLast? = (d :: ds).getLast? := rfl
        rw [h1]
        cases hgl : (d :: ds).getLast? with
        | none => exact absurd (List.getLast?_eq_none_iff.mp hgl) (by simp)
        | some e => rfl
    by_cases hc : c = '/'
    · subst hc
      have hceq : (('/' : Char) == '/') = true := by simp
      cases f with
      | true =>
        have hL : Client.collapseSlashesAux (('/' :: rest) ++ b) true
            = Client.collapseSlashesAux (rest ++ b) true := rfl
        have hR : Client.collapseSlashesAux ('/' :: rest) true
            = Client.collapseSlashesAux rest true := rfl
        rw [hL, hR, ih true, hend, hceq]
      | false =>
        have hL : Client.collapseSlashesAux (('/' :: rest) ++ b) false
            = '/' :: Client.collapseSlashesAux (rest ++ b) true := rfl
        have hR : Client.collapseSlashesAux ('/' :: rest) false
            = '/' :: Client.collapseSlashesAux rest true := rfl
        rw [hL, hR, ih true, hend, hceq]
        simp
    · have hc2 : (c == '/') = false := by simp [hc]
      have hL : Client.collapseSlashesAux ((c :: rest) ++ b) f
          = c :: Client.collapseSlashesAux (rest ++ b) false := by
        simp only [List.cons_append, Client.collapseSlashesAux, if_neg hc]
        rfl
      have hR : Client.collapseSlashesAux (c :: rest) f
          = c :: Client.collapseSlashesAux rest false := by
        simp only [Client.collapseSlashesAux, if_neg hc]
      rw [hL, hR, ih false, hend, hc2]
      simp

theorem noDoubleSlashAux_cons (a : Char) (l : List Char)
    (h : noDoubleSlashAux (a :: l) = true) :
    noDoubleSlashAux l = true ∧ (a = '/' → l.head? ≠ some '/') := by
  cases l with
  | nil => exact ⟨rfl, by intro _ hx; cases hx⟩
  | cons b rest =>
    unfold noDoubleSlashAux at h
    have h1 : (!(a == '/' && b == '/')) = true ∧ noDoubleSlashAux (b :: rest) = true := by
      cases hx : (!(a == '/' && b == '/')) <;> cases hy : noDoubleSlashAux (b :: rest) <;>
        simp_all
    refine ⟨h1.2, ?_⟩
    intro ha hb
    simp only [List.head?] at hb
    have hbeq : b = '/' := by cases hb; rfl
    subst ha
    subst hbeq
    simp at h1

theorem collapseAux_noop :
    ∀ (l : List Char) (f : Bool), noDoubleSlashAux l = true →
      (f = true → l.head? ≠ some '/') → Client.collapseSlashesAux l f = l := by
  intro l
  induction l with
  | nil => intro f _ _; rfl
  | cons c rest ih =>
    intro f hnd hf
    obtain ⟨hnd2, hpair⟩ := noDoubleSlashAux_cons c rest hnd
    by_cases hc : c = '/'
    · subst hc
      have hf2 : f = false := by
        cases hfv : f with
        | true =>
          exfalso
          exact hf hfv rfl
        | false => rfl
      subst hf2
      have hL : Client.collapseSlashesAux ('/' :: rest) false
          = '/' :: Client.collapseSlashesAux rest true := rfl
      rw [hL, ih true hnd2 (fun _ => hpair rfl)]
    · have hc2 : (c == '/') = false := by simp [hc]
      have hL : Client.collapseSlashesAux (c :: rest) f
          = c :: Client.collapseSlashesAux rest false := by
        simp only [Client.collapseSlashesAux, if_neg hc]
      rw [hL, ih false hnd2 (by intro hx; cases hx)]

theorem data_ne_nil_of_ne_empty (s : String) (h : s ≠ "") : s.data ≠ [] := by
  intro hd
  exact h (String.ext hd)

theorem lastIs_eq_endSlash (s : String) (f : Bool) (h : s ≠ "") :
    endSlash s.data f = lastIs '/' s := by
  unfold endSlash lastIs
  cases hl : s.data.getLast? with
  | none =>
    exfalso
    exact data_ne_nil_of_ne_empty s h (List.getLast?_eq_none_iff.mp hl)
  | some c => simp

/-- For a well-formed parent and a plain segment, the url-join model of the
client agrees with the server's joinPaths, character for character. -/
theorem urlJoin_eq_joinPaths (pp s : String) (hpp : ParentOk pp) (hs : PlainStr s) :
    Client.urlJoin pp ("/" ++ s) = Server.joinPaths pp s := by
  obtain ⟨hne, hhead, hlast, hnd, _, _⟩ := hs
  have hsdata : ("/" ++ s).data = '/' :: s.data := by
    rw [String.data_append]
    rfl
  have hshead : s.data.head? ≠ some '/' := by
    intro hx
    unfold headIs at hhead
    rw [hx] at hhead
    simp at hhead
  have hcollapse2 : Client.collapseSlashesAux ('/' :: '/' :: s.data) false = '/' :: s.data := by
    show '/' :: Client.collapseSlashesAux ('/' :: s.data) true = _
    show '/' :: Client.collapseSlashesAux s.data true = _
    rw [collapseAux_noop s.data true (by exact hnd) (fun _ => hshead)]
  rcases hpp with hroot | ⟨hpne, hphead, hplast, hpnd, _⟩
  · subst hroot
    apply String.ext
    show Client.collapseSlashesAux (('/' :: []) ++ '/' :: '/' :: s.data) false
        = (Server.joinPaths "/" s).data
    rw [collapseAux_append]
    have h1 : Client.collapseSlashesAux ['/'] false = ['/'] := rfl
    have h2 : endSlash ['/'] false = true := rfl
    rw [h1, h2]
    show ['/'] ++ Client.collapseSlashesAux ('/' :: s.data) true = _
    have h3 : Client.collapseSlashesAux ('/' :: s.data) true
        = Client.collapseSlashesAux s.data true := rfl
    rw [h3, collapseAux_noop s.data true hnd (fun _ => hshead)]
    show '/' :: s.data = (Server.joinPaths "/" s).data
    unfold Server.joinPaths
    have h4 : lastIs '/' "/" = true := rfl
    rw [h4]
    have h5 : dropLastOne "/" = "" := rfl
    simp only [if_true, h5]
    unfold headIs at hhead
    have h6 : (headIs '/' s) = false := by unfold headIs; exact hhead
    rw [h6]
    simp only [Bool.false_eq_true, if_false]
    rw [String.data_append]
    show '/' :: s.data = "".data ++ ('/' :: s.data)
    rfl
  · apply String.ext
    show Client.collapseSlashesAux (pp.data ++ '/' :: '/' :: s.data) false
        = (Server.joinPaths pp s).data
    rw [collapseAux_append]
    rw [collapseAux_noop pp.data false hpnd (by intro hx; cases hx)]
    have hend : endSlash pp.data false = false := by
      rw [lastIs_eq_endSlash pp false hpne]
      exact hplast
    rw [hend, hcollapse2]
    unfold Server.joinPaths
    rw [hplast]
    simp only [Bool.false_eq_true, if_false]
    have h6 : (headIs '/' s) = false := hhead
    rw [h6]
    simp only [Bool.false_eq_true, if_false]
    rw [String.data_append, hsdata]

theorem contains_append_false (a b : List Char) (x : Char)
    (ha : a.contains x = false) (hb : b.contains x = false) :
    (a ++ b).contains x = false := by
  induction a with
  | nil => exact hb
  | cons c rest ih =>
    rw [contains_cons_char] at ha
    have h1 : (x == c) = false := by cases hx : x == c <;> simp_all
    have h2 : rest.contains x = false := by
      cases hx : rest.contains x <;> simp_all
    show ((c :: (rest ++ b)).contains x) = false
    rw [contains_cons_char, h1, ih h2]
    rfl

theorem noDoubleAux_append_slash (a sdata : List Char)
    (ha : noDoubleSlashAux a = true)
    (hlast : ∀ c, a.getLast? = some c → c ≠ '/')
    (hs : noDoubleSlashAux sdata = true) (hh : sdata.head? ≠ some '/') :
    noDoubleSlashAux (a ++ '/' :: sdata) = true := by
  induction a with
  | nil =>
    cases sdata with
    | nil => rfl
    | cons d ds =>
      have hd : ¬ d = '/' := by
        intro he
        exact hh (by rw [he]; rfl)
      unfold noDoubleSlashAux
      have hd2 : (d == '/') = false := by simp [hd]
      simp [hd2, hs]
  | cons c rest ih =>
    cases rest with
    | nil =>
      have hc : c ≠ '/' := hlast c rfl
      have hc2 : (c == '/') = false := by simp [hc]
      show noDoubleSlashAux (c :: '/' :: sdata) = true
      unfold noDoubleSlashAux
      have hrest : noDoubleSlashAux ([] ++ '/' :: sdata) = true :=
        ih rfl (fun c2 h2 => by cases h2)
      simp only [List.nil_append] at hrest
      simp [hc2, hrest]
    | cons d ds =>
      obtain ⟨hnd2, hpair⟩ := noDoubleSlashAux_cons c (d :: ds) ha
      have hlast2 : ∀ c2, (d :: ds).getLast? = some c2 → c2 ≠ '/' := by
        intro c2 h2
        exact hlast c2 (by rw [← h2]; rfl)
      have hrec := ih hnd2 hlast2
      show noDoubleSlashAux (c :: (d :: ds) ++ '/' :: sdata) = true
      have hx : noDoubleSlashAux (c :: (d :: ds) ++ '/' :: sdata)
          = (!(c == '/' && d == '/') && noDoubleSlashAux ((d :: ds) ++ '/' :: sdata)) := rfl
      rw [hx, hrec]
      have hpairx : (!(c == '/' && d == '/')) = true := by
        by_cases hcc : c = '/'
        · have := hpair hcc
          have hd : ¬ d = '/' := by
            intro he
            exact this (by rw [he]; rfl)
          simp [hd]
        · simp [hcc]
      rw [hpairx]
      rfl

theorem core_both_empty (b : Bool) : extractParamsCore [] [] b = some [] := by
  cases b <;> rfl

theorem client_extract_eq_core (pat path : String) (b : Bool) :
    Client.extractParams pat path b
      = extractParamsCore (splitSlash pat) (splitSlash path) b := by
  have hnorm : ∀ s : String, splitSlash (if s = "/" then "" else s) = splitSlash s := by
    intro s
    by_cases h : s = "/"
    · rw [if_pos h, h]
      decide
    · rw [if_neg h]
  show (let np := if pat = "/" then "" else pat
        let nq := if path = "/" then "" else path
        let pp := splitSlash np
        let qq := splitSlash nq
        if pp.isEmpty ∧ qq.isEmpty then some []
        else extractParamsCore pp qq b) = _
  simp only [hnorm]
  by_cases hboth : (splitSlash pat).isEmpty ∧ (splitSlash path).isEmpty
  · rw [if_pos hboth]
    rw [List.isEmpty_iff.mp hboth.1, List.isEmpty_iff.mp hboth.2]
    exact (core_both_empty b).symm
  · rw [if_neg hboth]

/-- C7 groundwork: the two extractParams implementations agree on every
input — part_021's root-normalization and both-empty special cases are
semantic no-ops. -/
theorem extractParams_parity (pat path : String) (b : Bool) :
    Client.extractParams pat path b = Server.extractParams pat path b :=
  client_extract_eq_core pat path b

theorem plainStr_ne_slash (s : String) (hs : PlainStr s) : s ≠ "/" := by
  intro he
  subst he
  exact absurd hs.2.1 (by decide)

theorem plain_arrays (r : Route) (s : String)
    (hpath : r.path = some (.str s)) (hs : PlainStr s) :
    Client.pathArrayOf r = [s] ∧ Server.pathArrayOf r = [s] := by
  constructor
  · unfold Client.pathArrayOf
    rw [hpath]
    show (if containsChar '|' s then splitPipe s else [s]) = [s]
    simp [hs.2.2.2.2.1]
  · unfold Server.pathArrayOf
    rw [hpath]
    show (if s = "" then [] else [s]) = [s]
    rw [if_neg hs.1]

theorem plain_is404 (r : Route) (s : String)
    (hpath : r.path = some (.str s)) (hs : PlainStr s) :
    Client.is404Route r = false ∧ Server.is404Route r = false := by
  have h404 : s ≠ "404" := hs.2.2.2.2.2
  have h404b : s ≠ "/404" := by
    intro he
    have := hs.2.1
    rw [he] at this
    exact absurd this (by decide)
  constructor
  · unfold Client.is404Route
    rw [(plain_arrays r s hpath hs).1]
    simp [h404, h404b]
  · unfold Server.is404Route
    rw [hpath]
    simp [h404, h404b]

theorem plain_buckets (r : Route) (s : String)
    (hpath : r.path = some (.str s)) (hs : PlainStr s) :
    Client.hasCatchAllRoute r = Server.hasCatchAllRoute r ∧
    Client.hasDynamicRoute r = Server.hasDynamicRoute r := by
  unfold Client.hasCatchAllRoute Server.hasCatchAllRoute
    Client.hasDynamicRoute Server.hasDynamicRoute
  rw [(plain_arrays r s hpath hs).1, (plain_arrays r s hpath hs).2]
  exact ⟨rfl, rfl⟩

theorem classify_p404_none (rs : List Route) (acc : Client.Classified)
    (h : ∀ r ∈ rs, Client.is404Route r = false) :
    (rs.foldl Client.classifyStep acc).page404Component = acc.page404Component := by
  induction rs generalizing acc with
  | nil => rfl
  | cons r rest ih =>
    rw [List.foldl_cons, ih _ (fun x hx => h x (List.mem_cons_of_mem _ hx))]
    have h4 := h r (List.mem_cons_self _ _)
    unfold Client.classifyStep
    by_cases hc : Client.hasCatchAllRoute r <;>
      by_cases hd : Client.hasDynamicRoute r <;> simp [h4, hc, hd]

/-- For plain routes the two classifiers produce the same ordered list and
the client collects no 404 component. -/
theorem ordered_parity (rs : List Route) (h : ∀ r ∈ rs, PlainRoute r) :
    (Client.classify rs).staticRoutes ++ (Client.classify rs).dynamicRoutes
        ++ (Client.classify rs).catchAllRoutes
      = (Server.classify rs).staticRoutes ++ (Server.classify rs).dynamicRoutes
        ++ (Server.classify rs).catchAllRoutes ∧
    (Client.classify rs).page404Component = none := by
  have hper : ∀ r ∈ rs, Client.is404Route r = false ∧ Server.is404Route r = false ∧
      Client.hasCatchAllRoute r = Server.hasCatchAllRoute r ∧
      Client.hasDynamicRoute r = Server.hasDynamicRoute r := by
    intro r hr
    cases h r hr with
    | intro _ s hpath hsp hcomp hmw hguard hred hch =>
      exact ⟨(plain_is404 r s hpath hsp).1, (plain_is404 r s hpath hsp).2,
        (plain_buckets r s hpath hsp).1, (plain_buckets r s hpath hsp).2⟩
  constructor
  · obtain ⟨hS, hD, hC⟩ := classify_buckets rs ⟨[], [], [], none⟩
    obtain ⟨hS2, hD2, hC2⟩ := serverClassify_buckets rs ⟨[], [], []⟩
    have hc1 : Client.classify rs = rs.foldl Client.classifyStep ⟨[], [], [], none⟩ := rfl
    have hs1 : Server.classify rs = rs.foldl Server.classifyStep ⟨[], [], []⟩ := rfl
    rw [hc1, hs1, hS, hD, hC, hS2, hD2, hC2]
    simp only [List.nil_append]
    have hfS : rs.filter (fun r => !Client.is404Route r && !Client.hasCatchAllRoute r
        && !Client.hasDynamicRoute r)
        = rs.filter (fun r => !Server.is404Route r && !Server.hasCatchAllRoute r
        && !Server.hasDynamicRoute r) := by
      apply List.filter_congr
      intro x hx
      obtain ⟨h1, h2, h3, h4⟩ := hper x hx
      rw [h1, h2, h3, h4]
    have hfD : rs.filter (fun r => !Client.is404Route r && !Client.hasCatchAllRoute r
        && Client.hasDynamicRoute r)
        = rs.filter (fun r => !Server.is404Route r && !Server.hasCatchAllRoute r
        && Server.hasDynamicRoute r) := by
      apply List.filter_congr
      intro x hx
      obtain ⟨h1, h2, h3, h4⟩ := hper x hx
      rw [h1, h2, h3, h4]
    have hfC : rs.filter (fun r => !Client.is404Route r && Client.hasCatchAllRoute r)
        = rs.filter (fun r => !Server.is404Route r && Server.hasCatchAllRoute r) := by
      apply List.filter_congr
      intro x hx
      obtain ⟨h1, h2, h3, h4⟩ := hper x hx
      rw [h1, h2, h3]
    rw [hfS, hfD, hfC]
  · exact classify_p404_none rs ⟨[], [], [], none⟩ (fun r hr => (hper r hr).1)

theorem joinPaths_data (pp s : String) (hpp : ParentOk pp) (hs : PlainStr s) :
    (Server.joinPaths pp s).data
      = (if pp = "/" then [] else pp.data) ++ '/' :: s.data := by
  unfold Server.joinPaths
  have hhead : headIs '/' s = false := hs.2.1
  rw [hhead]
  simp only [Bool.false_eq_true, if_false]
  rcases hpp with hroot | ⟨hpne, hph, hpl, hpnd, hpnp⟩
  · subst hroot
    rw [if_pos rfl]
    rfl
  · have hppne : pp ≠ "/" := by
      intro he
      rw [he] at hpl
      exact absurd hpl (by decide)
    rw [if_neg hppne, hpl]
    simp only [Bool.false_eq_true, if_false]
    rw [String.data_append, String.data_append]
    rfl

theorem joinPaths_props (pp s : String) (hpp : ParentOk pp) (hs : PlainStr s) :
    ParentOk (Server.joinPaths pp s) ∧ Server.joinPaths pp s ≠ "" ∧
    containsChar '|' (Server.joinPaths pp s) = false := by
  obtain ⟨hne, hhd, hlast, hnd, hnp, h404⟩ := hs
  have hdata := joinPaths_data pp s hpp ⟨hne, hhd, hlast, hnd, hnp, h404⟩
  have hsdne : s.data ≠ [] := data_ne_nil_of_ne_empty s hne
  have hJne : Server.joinPaths pp s ≠ "" := by
    intro he
    have h0 : (Server.joinPaths pp s).data = [] := by rw [he]
    rw [hdata] at h0
    exact List.cons_ne_nil _ _ (List.append_eq_nil.mp h0).2
  have hhd' : s.data.head? ≠ some '/' := by
    intro he
    unfold headIs at hhd
    rw [he] at hhd
    simp at hhd
  have hJhead : headIs '/' (Server.joinPaths pp s) = true := by
    unfold headIs
    rw [hdata]
    by_cases hroot : pp = "/"
    · rw [if_pos hroot]
      rfl
    · rw [if_neg hroot]
      rcases hpp with h | ⟨hpne, hph, _, _, _⟩
      · exact absurd h hroot
      · cases hpd : pp.data with
        | nil => exact absurd hpd (data_ne_nil_of_ne_empty pp hpne)
        | cons c cs =>
          unfold headIs at hph
          rw [hpd] at hph
          simpa using hph
  have hJlast : lastIs '/' (Server.joinPaths pp s) = false := by
    unfold lastIs
    rw [hdata]
    rw [List.getLast?_append_of_ne_nil _ (List.cons_ne_nil '/' s.data)]
    have h1 : ('/' :: s.data).getLast? = s.data.getLast? := by
      show (['/'] ++ s.data).getLast? = s.data.getLast?
      exact List.getLast?_append_of_ne_nil _ hsdne
    rw [h1]
    unfold lastIs at hlast
    exact hlast
  have hJnd : noDoubleSlash (Server.joinPaths pp s) = true := by
    unfold noDoubleSlash
    rw [hdata]
    by_cases hroot : pp = "/"
    · rw [if_pos hroot]
      exact noDoubleAux_append_slash [] s.data rfl (fun c h => by cases h) hnd hhd'
    · rw [if_neg hroot]
      rcases hpp with h | ⟨hpne, hph, hpl, hpnd, hpnp⟩
      · exact absurd h hroot
      · refine noDoubleAux_append_slash pp.data s.data hpnd ?_ hnd hhd'
        intro c hc hcs
        subst hcs
        unfold lastIs at hpl
        rw [hc] at hpl
        simp at hpl
  have hJnp : containsChar '|' (Server.joinPaths pp s) = false := by
    unfold containsChar
    rw [hdata]
    have h2 : ('/' :: s.data).contains '|' = false := by
      rw [contains_cons_char]
      have h3 : s.data.contains '|' = false := hnp
      rw [h3]
      rfl
    by_cases hroot : pp = "/"
    · rw [if_pos hroot]
      exact h2
    · rw [if_neg hroot]
      rcases hpp with h | ⟨hpne, hph, hpl, hpnd, hpnp⟩
      · exact absurd h hroot
      · exact contains_append_false pp.data _ '|' hpnp h2
  exact ⟨Or.inr ⟨hJne, hJhead, hJlast, hJnd, hJnp⟩, hJne, hJnp⟩

theorem plain_getFirstPath (route : Route) (s : String)
    (hpath : route.path = some (.str s)) (hnp : containsChar '|' s = false) :
    Client.getFirstPath route.path = s ∧ Server.getFirstPath route.path = s := by
  have h1 : Client.getFirstPath route.path = s := by
    rw [hpath]
    show (if containsChar '|' s then ((splitPipe s).head?).getD "" else s) = s
    simp [hnp]
  exact ⟨h1, h1⟩

theorem plain_clientNormalizePath (route : Route) (s : String)
    (hpath : route.path = some (.str s)) (hs : PlainStr s) :
    Client.normalizePath route.path = s := by
  rw [hpath]
  show (if s = "/" then "" else if headIs '/' s then sliceOne s else s) = s
  rw [if_neg (plainStr_ne_slash s hs)]
  simp [hs.2.1]

theorem plain_serverNormalizePath (route : Route) (s : String)
    (hpath : route.path = some (.str s)) :
    Server.normalizePath route.path = s := by
  rw [hpath]
  rfl

theorem plain_routeFullPath (route : Route) (s pp : String)
    (hpath : route.path = some (.str s)) (hs : PlainStr s) (hpp : ParentOk pp) :
    Client.routeFullPath route pp = Server.joinPaths pp s := by
  show (if Client.getFirstPath route.path = "/" ∨ Client.getFirstPath route.path = ""
      then pp else Client.urlJoin pp ("/" ++ Client.getFirstPath route.path))
    = Server.joinPaths pp s
  rw [(plain_getFirstPath route s hpath hs.2.2.2.2.1).1]
  have hcond : ¬(s = "/" ∨ s = "") := by
    rintro (h | h)
    · exact plainStr_ne_slash s hs h
    · exact hs.1 h
  rw [if_neg hcond]
  exact urlJoin_eq_joinPaths pp s hpp hs

theorem plain_routeFullPattern (route : Route) (s pp : String)
    (hpath : route.path = some (.str s)) (hs : PlainStr s) (hpp : ParentOk pp) :
    Client.routeFullPattern route pp = Server.joinPaths pp s := by
  show (if containsChar '|' (Client.normalizePath route.path) then
      joinWith "|" ((splitPipe (Client.normalizePath route.path)).map
        (fun p => if p = "" then pp else Client.urlJoin pp ("/" ++ p)))
    else Client.routeFullPath route pp) = Server.joinPaths pp s
  rw [plain_clientNormalizePath route s hpath hs]
  simp only [hs.2.2.2.2.1, Bool.false_eq_true, if_false]
  exact plain_routeFullPath route s pp hpath hs hpp

theorem tryPats_single (cp : String) (b : Bool) (pat : String) (h : pat ≠ "") :
    Client.tryPats cp b [pat]
      = (Client.extractParams pat cp b).map (fun ps => (ps, pat)) := by
  show (match Client.extractParams (if pat = "" then "/" else pat) cp b with
        | some ps => some (ps, (if pat = "" then "/" else pat))
        | none => Client.tryPats cp b []) = _
  rw [if_neg h]
  cases hE : Client.extractParams pat cp b <;> rfl

theorem tryPatterns_single (cp pp : String) (b : Bool) (pat : String) :
    Server.tryPatterns cp pp b [pat]
      = (Server.extractParams (Server.joinPaths pp pat) cp b).map
          (fun ps => (Server.joinPaths pp pat, ps)) := by
  show (match Server.extractParams (Server.joinPaths pp pat) cp b with
        | some ps => some (Server.joinPaths pp pat, ps)
        | none => Server.tryPatterns cp pp b []) = _
  cases hE : Server.extractParams (Server.joinPaths pp pat) cp b <;> rfl

/-- C7 groundwork: on a plain route the client's matchPathPattern scrutinee
and the server's tryPatterns scrutinee are both determined by one shared
extractParams call on the joined full pattern. -/
theorem plain_scrutinees (route : Route) (s cp pp : String) (b : Bool)
    (hpath : route.path = some (.str s)) (hs : PlainStr s) (hpp : ParentOk pp) :
    Client.matchPathPattern (Client.routeFullPattern route pp) cp b
      = (Server.extractParams (Server.joinPaths pp s) cp b).map
          (fun ps => (ps, Server.joinPaths pp s)) ∧
    Server.tryPatterns cp pp b (splitPipe (Server.normalizePath route.path))
      = (Server.extractParams (Server.joinPaths pp s) cp b).map
          (fun ps => (Server.joinPaths pp s, ps)) := by
  obtain ⟨hJok, hJne, hJnp⟩ := joinPaths_props pp s hpp hs
  constructor
  · unfold Client.matchPathPattern
    rw [plain_routeFullPattern route s pp hpath hs hpp,
      splitPipe_singleton _ hJnp, tryPats_single cp b _ hJne,
      extractParams_parity]
  · rw [plain_serverNormalizePath route s hpath,
      splitPipe_singleton _ hs.2.2.2.2.1, tryPatterns_single cp pp b s]

theorem rel_noMatch (collected : List RMatch) :
    ServerClientRel (Client.noMatchResult collected none) Server.noMatchResult
      collected := by
  refine ⟨rfl, rfl, rfl, (List.append_nil collected).symm, rfl, ?_, rfl⟩
  simp [Client.noMatchResult, Server.noMatchResult]

theorem rel_terminal (route : Route) (ps : Rec) (pat cp pp : String)
    (collected : List RMatch) (hcomp : route.component.isSome = true) :
    ServerClientRel
      (Client.terminalResult route ps pat
        (collected ++ [⟨route, ps, cp, pp, pat⟩]) none)
      (Server.terminalResult route ⟨route, ps, cp, pp, pat⟩ ps) collected := by
  refine ⟨rfl, rfl, rfl, rfl, rfl, ?_, rfl⟩
  exact ⟨fun _ => List.cons_ne_nil _ _, fun _ => hcomp⟩

theorem rel_cond_iff (cRes : Client.MatchResult) (sRes : Server.ServerMatchResult)
    (col : List RMatch) (h : ServerClientRel cRes sRes col) :
    ((cRes.component.isSome = true) ∨ (optStrTruthy cRes.redirect = true))
      ↔ sRes.matchList ≠ [] := by
  obtain ⟨hcr, _, _, _, _, hiff, _⟩ := h
  constructor
  · rintro (h1 | h1)
    · exact hiff.mp h1
    · rw [hcr] at h1
      exact absurd h1 (by decide)
  · intro h1
    exact Or.inl (hiff.mpr h1)

theorem rel_finishMatched (n : Nat) (cp ss pp : String) (route : Route) (ps : Rec)
    (s : String) (collected : List RMatch)
    (ihfuel : ∀ cs pp2 col2, sizeOf cs < n → (∀ c ∈ cs, PlainRoute c) →
      ParentOk pp2 →
      ServerClientRel (Client.matchRoutesAsync n cs cp pp2 ss col2)
        (Server.matchServerRoutes n cs cp pp2) col2)
    (hcomp : route.component.isSome = true)
    (hch : ∀ cs, route.children = some cs → ∀ c ∈ cs, PlainRoute c)
    (hchsz : ∀ cs, route.children = some cs → sizeOf cs < n)
    (hJ : ParentOk (Server.joinPaths pp s)) :
    ServerClientRel
      (Client.finishMatched (Client.matchRoutesAsync n) route ps
        (Server.joinPaths pp s) cp pp ss (Server.joinPaths pp s) none collected)
      (match route.children with
        | some cs =>
          if cs.length > 0 then
            if optStrTruthy (Server.matchServerRoutes n cs cp
                (Server.joinPaths pp s)).redirect
            then Server.matchServerRoutes n cs cp (Server.joinPaths pp s)
            else if (Server.matchServerRoutes n cs cp
                (Server.joinPaths pp s)).matchList.length > 0 then
              { matchList := (⟨route, ps, cp, pp, Server.joinPaths pp s⟩ : RMatch)
                  :: (Server.matchServerRoutes n cs cp (Server.joinPaths pp s)).matchList,
                params := rmerge ps
                  (Server.matchServerRoutes n cs cp (Server.joinPaths pp s)).params,
                statusCode := (Server.matchServerRoutes n cs cp
                  (Server.joinPaths pp s)).statusCode,
                meta := if (Server.matchServerRoutes n cs cp
                    (Server.joinPaths pp s)).meta.isSome
                  then (Server.matchServerRoutes n cs cp (Server.joinPaths pp s)).meta
                  else route.meta }
            else Server.terminalResult route
              ⟨route, ps, cp, pp, Server.joinPaths pp s⟩ ps
          else Server.terminalResult route
            ⟨route, ps, cp, pp, Server.joinPaths pp s⟩ ps
        | none => Server.terminalResult route
            ⟨route, ps, cp, pp, Server.joinPaths pp s⟩ ps)
      collected := by
  unfold Client.finishMatched
  cases hc : route.children with
  | none =>
    exact rel_terminal route ps (Server.joinPaths pp s) cp pp collected hcomp
  | some cs =>
    by_cases hlen : cs.length > 0
    · simp only [hlen, if_true]
      have hrel := ihfuel cs (Server.joinPaths pp s)
        (collected ++ [⟨route, ps, cp, pp, Server.joinPaths pp s⟩])
        (hchsz cs hc) (hch cs hc) hJ
      have hcond := rel_cond_iff _ _ _ hrel
      obtain ⟨hcrd, hsrd, hcer, hml, hps, hiff, hstat⟩ := hrel
      have hsrdF : optStrTruthy (Server.matchServerRoutes n cs cp
          (Server.joinPaths pp s)).redirect = false := by
        rw [hsrd]
        rfl
      rw [hsrdF]
      simp only [Bool.false_eq_true, if_false]
      by_cases htr : (Client.matchRoutesAsync n cs cp (Server.joinPaths pp s) ss
          (collected ++ [⟨route, ps, cp, pp, Server.joinPaths pp s⟩])).component.isSome
          ∨ optStrTruthy (Client.matchRoutesAsync n cs cp (Server.joinPaths pp s) ss
            (collected ++ [⟨route, ps, cp, pp, Server.joinPaths pp s⟩])).redirect
      · simp only [htr, if_true]
        have hm : (Server.matchServerRoutes n cs cp
            (Server.joinPaths pp s)).matchList ≠ [] := hcond.mp htr
        rw [if_pos (List.length_pos.mpr hm)]
        refine ⟨rfl, rfl, rfl, ?_, ?_, ?_, ?_⟩
        · show (Client.matchRoutesAsync n cs cp (Server.joinPaths pp s) ss
            (collected ++ [⟨route, ps, cp, pp, Server.joinPaths pp s⟩])).matchList = _
          rw [hml, List.append_assoc]
          rfl
        · show rmerge ps (Client.matchRoutesAsync n cs cp (Server.joinPaths pp s) ss
            (collected ++ [⟨route, ps, cp, pp, Server.joinPaths pp s⟩])).params = _
          rw [hps]
        · exact ⟨fun _ => List.cons_ne_nil _ _, fun _ => rfl⟩
        · show (Server.matchServerRoutes n cs cp (Server.joinPaths pp s)).statusCode = _
          have hie : (Server.matchServerRoutes n cs cp
              (Server.joinPaths pp s)).matchList.isEmpty = false := by
            cases hx : (Server.matchServerRoutes n cs cp
                (Server.joinPaths pp s)).matchList.isEmpty
            · rfl
            · exact absurd (List.isEmpty_iff.mp hx) hm
          rw [hstat, hie]
          rfl
      · simp only [htr, if_false]
        have hm : (Server.matchServerRoutes n cs cp
            (Server.joinPaths pp s)).matchList = [] := by
          by_contra hm2
          exact htr (hcond.mpr hm2)
        rw [if_neg (by rw [hm]; exact Nat.lt_irrefl 0)]
        exact rel_terminal route ps (Server.joinPaths pp s) cp pp collected hcomp
    · simp only [hlen, if_false]
      exact rel_terminal route ps (Server.joinPaths pp s) cp pp collected hcomp

theorem rel_unmatchedStep (n : Nat) (cp ss pp : String) (route : Route)
    (s : String) (collected : List RMatch)
    (skip : Client.MatchResult) (sskip : Server.ServerMatchResult)
    (ihfuel : ∀ cs pp2 col2, sizeOf cs < n → (∀ c ∈ cs, PlainRoute c) →
      ParentOk pp2 →
      ServerClientRel (Client.matchRoutesAsync n cs cp pp2 ss col2)
        (Server.matchServerRoutes n cs cp pp2) col2)
    (hpath : route.path = some (.str s)) (hs : PlainStr s) (hpp : ParentOk pp)
    (hch : ∀ cs, route.children = some cs → ∀ c ∈ cs, PlainRoute c)
    (hchsz : ∀ cs, route.children = some cs → sizeOf cs < n)
    (hskip : ServerClientRel skip sskip collected) :
    ServerClientRel
      (Client.unmatchedStep (Client.matchRoutesAsync n) route cp pp ss none
        collected skip)
      (match route.children with
        | some cs =>
          if (Server.matchServerRoutes n cs cp
                (Server.joinPaths pp s)).matchList.length > 0
              ∨ optStrTruthy (Server.matchServerRoutes n cs cp
                (Server.joinPaths pp s)).redirect
            then Server.matchServerRoutes n cs cp (Server.joinPaths pp s)
            else sskip
        | none => sskip)
      collected := by
  have hJ : ParentOk (Server.joinPaths pp s) := (joinPaths_props pp s hpp hs).1
  unfold Client.unmatchedStep
  rw [plain_routeFullPath route s pp hpath hs hpp]
  cases hc : route.children with
  | none => exact hskip
  | some cs =>
    have hrel := ihfuel cs (Server.joinPaths pp s) collected (hchsz cs hc)
      (hch cs hc) hJ
    have hcond := rel_cond_iff _ _ _ hrel
    have hsrd : (Server.matchServerRoutes n cs cp
        (Server.joinPaths pp s)).redirect = none := hrel.2.1
    have hsrdF : optStrTruthy (Server.matchServerRoutes n cs cp
        (Server.joinPaths pp s)).redirect = false := by
      rw [hsrd]
      rfl
    by_cases htr : (Client.matchRoutesAsync n cs cp (Server.joinPaths pp s) ss
        collected).component.isSome
        ∨ optStrTruthy (Client.matchRoutesAsync n cs cp (Server.joinPaths pp s) ss
          collected).redirect
    · simp only [htr, if_true]
      have hm : (Server.matchServerRoutes n cs cp
          (Server.joinPaths pp s)).matchList ≠ [] := hcond.mp htr
      rw [if_pos (Or.inl (List.length_pos.mpr hm))]
      exact hrel
    · simp only [htr, if_false]
      have hm : (Server.matchServerRoutes n cs cp
          (Server.joinPaths pp s)).matchList = [] := by
        by_contra hm2
        exact htr (hcond.mpr hm2)
      rw [if_neg ?hno]
      case hno =>
        rintro (h1 | h1)
        · rw [hm] at h1
          exact Nat.lt_irrefl 0 h1
        · rw [hsrdF] at h1
          exact absurd h1 (by decide)
      exact hskip

theorem plain_matchedStep_eq
    (recurse : List Route → String → String → String → List RMatch →
      Client.MatchResult)
    (route : Route) (ps : Rec) (pat cp pp ss : String)
    (p404 : Option Comp) (collected : List RMatch) (skip : Client.MatchResult)
    (hred : route.redirectTo = none) (hmw : route.middleware = [])
    (hguard : route.guard = none) :
    Client.matchedStep recurse route ps pat cp pp ss p404 collected skip
      = Client.finishMatched recurse route ps pat cp pp ss
          (Client.routeFullPath route pp) p404 collected := by
  unfold Client.matchedStep Client.guardCheck
  rw [hred, hmw, hguard]
  rfl

theorem rel_matchedStep (n : Nat) (cp ss pp : String) (route : Route) (ps : Rec)
    (s : String) (collected : List RMatch) (skip : Client.MatchResult)
    (ihfuel : ∀ cs pp2 col2, sizeOf cs < n → (∀ c ∈ cs, PlainRoute c) →
      ParentOk pp2 →
      ServerClientRel (Client.matchRoutesAsync n cs cp pp2 ss col2)
        (Server.matchServerRoutes n cs cp pp2) col2)
    (hpath : route.path = some (.str s)) (hs : PlainStr s) (hpp : ParentOk pp)
    (hcomp : route.component.isSome = true) (hmw : route.middleware = [])
    (hguard : route.guard = none) (hred : route.redirectTo = none)
    (hch : ∀ cs, route.children = some cs → ∀ c ∈ cs, PlainRoute c)
    (hchsz : ∀ cs, route.children = some cs → sizeOf cs < n) :
    ServerClientRel
      (Client.matchedStep (Client.matchRoutesAsync n) route ps
        (Server.joinPaths pp s) cp pp ss none collected skip)
      (if optStrTruthy route.redirectTo then
        { matchList := [], params := ps, redirect := route.redirectTo,
          statusCode := 302, meta := route.meta }
      else
        match route.children with
        | some cs =>
          if cs.length > 0 then
            if optStrTruthy (Server.matchServerRoutes n cs cp
                (Server.joinPaths pp s)).redirect
            then Server.matchServerRoutes n cs cp (Server.joinPaths pp s)
            else if (Server.matchServerRoutes n cs cp
                (Server.joinPaths pp s)).matchList.length > 0 then
              { matchList := (⟨route, ps, cp, pp, Server.joinPaths pp s⟩ : RMatch)
                  :: (Server.matchServerRoutes n cs cp (Server.joinPaths pp s)).matchList,
                params := rmerge ps
                  (Server.matchServerRoutes n cs cp (Server.joinPaths pp s)).params,
                statusCode := (Server.matchServerRoutes n cs cp
                  (Server.joinPaths pp s)).statusCode,
                meta := if (Server.matchServerRoutes n cs cp
                    (Server.joinPaths pp s)).meta.isSome
                  then (Server.matchServerRoutes n cs cp (Server.joinPaths pp s)).meta
                  else route.meta }
            else Server.terminalResult route
              ⟨route, ps, cp, pp, Server.joinPaths pp s⟩ ps
          else Server.terminalResult route
            ⟨route, ps, cp, pp, Server.joinPaths pp s⟩ ps
        | none => Server.terminalResult route
            ⟨route, ps, cp, pp, Server.joinPaths pp s⟩ ps)
      collected := by
  rw [plain_matchedStep_eq (Client.matchRoutesAsync n) route ps
    (Server.joinPaths pp s) cp pp ss none collected skip hred hmw hguard]
  rw [plain_routeFullPath route s pp hpath hs hpp]
  have hredF : optStrTruthy route.redirectTo = false := by
    rw [hred]
    rfl
  rw [hredF]
  simp only [Bool.false_eq_true, if_false]
  exact rel_finishMatched n cp ss pp route ps s collected ihfuel hcomp hch hchsz
    (joinPaths_props pp s hpp hs).1

theorem rel_matchLoop (n : Nat) (cp ss : String)
    (ihfuel : ∀ cs pp2 col2, sizeOf cs < n → (∀ c ∈ cs, PlainRoute c) →
      ParentOk pp2 →
      ServerClientRel (Client.matchRoutesAsync n cs cp pp2 ss col2)
        (Server.matchServerRoutes n cs cp pp2) col2) :
    ∀ (ordered : List Route) (pp : String) (collected : List RMatch),
      ParentOk pp →
      (∀ r ∈ ordered, PlainRoute r ∧
        (∀ cs, r.children = some cs → sizeOf cs < n)) →
      ServerClientRel
        (Client.matchLoop (Client.matchRoutesAsync n) cp pp ss none ordered
          collected)
        (Server.matchLoop (Server.matchServerRoutes n) cp pp ordered) collected := by
  intro ordered
  induction ordered with
  | nil =>
    intro pp collected _ _
    exact rel_noMatch collected
  | cons route rest ih =>
    intro pp collected hpp hall
    obtain ⟨hpl, hchsz⟩ := hall route (List.mem_cons_self _ _)
    have hskip := ih pp collected hpp (fun r hr => hall r (List.mem_cons_of_mem _ hr))
    cases hpl with
    | intro _ s hpath hsp hcomp hmw hguard hred hch =>
      simp only [Client.matchLoop, Server.matchLoop]
      obtain ⟨hcl, hsv⟩ :=
        plain_scrutinees route s cp pp (isParentRoute route) hpath hsp hpp
      rw [hcl, hsv, (plain_getFirstPath route s hpath hsp.2.2.2.2.1).2]
      cases hE : Server.extractParams (Server.joinPaths pp s) cp
          (isParentRoute route) with
      | none =>
        exact rel_unmatchedStep n cp ss pp route s collected
          (Client.matchLoop (Client.matchRoutesAsync n) cp pp ss none rest collected)
          (Server.matchLoop (Server.matchServerRoutes n) cp pp rest)
          ihfuel hpath hsp hpp hch hchsz hskip
      | some ps =>
        exact rel_matchedStep n cp ss pp route ps s collected
          (Client.matchLoop (Client.matchRoutesAsync n) cp pp ss none rest collected)
          ihfuel hpath hsp hpp hcomp hmw hguard hred hch hchsz

theorem plainRoute_viewRoute (p : String) (c : Nat) (hs : PlainStr p) :
    PlainRoute (viewRoute p c) :=
  PlainRoute.intro _ p rfl hs rfl rfl rfl rfl (fun cs hcs => by cases hcs)

/-- C7 (amended): for plain route trees — every route a single plain-string
path with a component and no middleware, guard or redirectTo — and a
well-formed parent path, the one-shot server resolver and the client
resolver agree: no redirect or error on either side, the client chain is
the collected ancestors followed by the server chain, identical params,
a client component exactly when the server matched, and the 200/404
status derived from the match. -/
theorem c7_amended_plain_tree_equivalence :
    ∀ (fuel : Nat) (rs : List Route) (cp pp ss : String)
      (collected : List RMatch),
      sizeOf rs < fuel → (∀ r ∈ rs, PlainRoute r) → ParentOk pp →
      ServerClientRel (Client.matchRoutesAsync fuel rs cp pp ss collected)
        (Server.matchServerRoutes fuel rs cp pp) collected := by
  intro fuel
  induction fuel with
  | zero =>
    intro rs cp pp ss col h _ _
    exact absurd h (Nat.not_lt_zero _)
  | succ n ih =>
    intro rs cp pp ss collected hsz hplain hpp
    show ServerClientRel
      (Client.matchLoop (Client.matchRoutesAsync n) cp pp ss
        (Client.classify rs).page404Component
        ((Client.classify rs).staticRoutes ++ (Client.classify rs).dynamicRoutes
          ++ (Client.classify rs).catchAllRoutes) collected)
      (Server.matchLoop (Server.matchServerRoutes n) cp pp
        ((Server.classify rs).staticRoutes ++ (Server.classify rs).dynamicRoutes
          ++ (Server.classify rs).catchAllRoutes)) collected
    obtain ⟨hord, hp404⟩ := ordered_parity rs hplain
    rw [hp404, ← hord]
    apply rel_matchLoop n cp ss
      (fun cs pp2 col2 hsz2 hpl2 hpp2 => ih cs cp pp2 ss col2 hsz2 hpl2 hpp2)
      _ pp collected hpp
    intro r hr
    have hmem : r ∈ rs := mem_ordered_mem rs r hr
    refine ⟨hplain r hmem, ?_⟩
    intro cs hcs
    have h1 : sizeOf r < sizeOf rs := List.sizeOf_lt_of_mem hmem
    have h2 : sizeOf cs < sizeOf r := route_children_sizeOf r cs hcs
    omega

/-- C7 counterexample: guards do not exist server-side.  For the guarded
/dashboard route, the client resolver commits a redirect to /login with an
empty chain, while the server resolver reports a 200 with a one-element
matches list and no redirect — the server status is not derived the same
way guards are derived client-side. -/
theorem c7_counterexample :
    (Server.matchServerRoutes 5 c7Routes "/dashboard" "/").statusCode = 200 ∧
    (Server.matchServerRoutes 5 c7Routes "/dashboard" "/").matchList.length = 1 ∧
    (Server.matchServerRoutes 5 c7Routes "/dashboard" "/").redirect = none ∧
    (Client.matchRoutesAsync 5 c7Routes "/dashboard" "/" "" []).redirect
      = some "/login" ∧
    (Client.matchRoutesAsync 5 c7Routes "/dashboard" "/" "" []).matchList = [] :=
  ⟨rfl, rfl, rfl, rfl, rfl⟩

/-- Witness for C7 amended: the concrete plain nested tree at a nested
location, with every hypothesis discharged on concrete data. -/
theorem c7_witness :
    sizeOf c7PlainRoutes < 10000 ∧
    ServerClientRel
      (Client.matchRoutesAsync 10000 c7PlainRoutes "/teams/7/members" "/" "" [])
      (Server.matchServerRoutes 10000 c7PlainRoutes "/teams/7/members" "/") [] :=
  ⟨by decide,
    c7_amended_plain_tree_equivalence 10000 c7PlainRoutes "/teams/7/members" "/" "" []
      (by decide)
      (by
        intro r hr
        simp only [c7PlainRoutes, List.mem_cons, List.mem_nil_iff, or_false] at hr
        rcases hr with h | h | h
        · subst h
          exact plainRoute_viewRoute _ _
            ⟨by decide, by decide, by decide, by decide, by decide, by decide⟩
        · subst h
          refine PlainRoute.intro _ "teams/:tid" rfl
            ⟨by decide, by decide, by decide, by decide, by decide, by decide⟩
            rfl rfl rfl rfl ?_
          intro cs hcs c hc
          cases hcs
          simp only [List.mem_cons, List.mem_nil_iff, or_false] at hc
          rcases hc with h2 | h2
          · subst h2
            exact plainRoute_viewRoute _ _
              ⟨by decide, by decide, by decide, by decide, by decide, by decide⟩
          · subst h2
            exact plainRoute_viewRoute _ _
              ⟨by decide, by decide, by decide, by decide, by decide, by decide⟩
        · subst h
          exact plainRoute_viewRoute _ _
            ⟨by decide, by decide, by decide, by decide, by decide, by decide⟩)
      (Or.inl rfl)⟩

end RouterKit
